import Mathlib

/-!
Verification of the carbon-emissions dashboard core
(`src/dataProcessor.js` and `src/agi_dashboard/app.js`).

The JavaScript code is shallowly embedded.  All numeric row data is modelled
with `ℚ` (exact rationals standing for the JS numbers that the aggregation
manipulates).  The geometry (positions, radii, label sizes) is generic over a
linear ordered field `R` together with an explicit record `JsMath R` of the
mathematical primitives the code obtains from the JS `Math` library
(`Math.PI`, `Math.sqrt`, `Math.cos`, `Math.sin`); theorems about real
trigonometry instantiate `R := ℝ` with the genuine real functions, while
executable witnesses instantiate `R := ℚ` with a dummy record (the discrete
fields of the output never depend on it).  `Math.random()` is modelled as an
explicit stream `rng : ℕ → R` consumed two values per placed trip, and the
random id fallback of line 95 as a stream `idR : ℕ → String`.
-/

namespace CarbonMap

/-- The JS `Math` library as an explicit capability record. -/
structure JsMath (R : Type) where
  pi : R
  sqrt : R → R
  cos : R → R
  sin : R → R

/-- The `Carbon Emission` cell after PapaParse `dynamicTyping`: missing/empty
(`undefined`), a cell parsed to a number, or a cell `dynamicTyping` left as a
string because it does not look numeric (e.g. `"N/A"`).  `Number` of such a
leftover string is `NaN`, so `Number(..) || 0` yields `0` for it. -/
inductive NumCell where
  | missing
  | num (q : ℚ)
  | str (s : String)
deriving DecidableEq

/-- One parsed CSV row (PapaParse with `header: true`, `dynamicTyping: true`).
A missing/empty cell is `none`; numeric cells are rationals; the emission
cell keeps the number-or-leftover-string distinction (`NumCell`). -/
structure Row where
  businessDept : Option String
  carbonEmission : NumCell
  tripId : Option String
  purpose : Option String
  shippingType : Option String
  departureCity : Option String
  arrivalCity : Option String
  netCosts : Option ℚ
deriving DecidableEq

/-- JS truthiness of a possibly missing string cell (`undefined`, `null` and
`""` are falsy). -/
def truthyS : Option String → Bool
  | none => false
  | some s => s ≠ ""

/-- JS truthiness of the emission cell: `undefined` and `0` are falsy, a
non-empty string — including a non-numeric one like `"N/A"` — is truthy. -/
def truthyN : NumCell → Bool
  | .missing => false
  | .num q => q ≠ 0
  | .str s => s ≠ ""

/-- `Number(cell) || 0` (`dataProcessor.js` line 72): `Number(undefined)` is
`NaN` and `Number` of a non-numeric leftover string is `NaN`, so both default
to `0`; a parsed number passes through (`q || 0` is `q` also at `q = 0`). -/
def numOr0 : NumCell → ℚ
  | .missing => 0
  | .num q => q
  | .str _ => 0

/-- JS `x || d` for a string cell (`dataProcessor.js` lines 98-100). -/
def orElseS (o : Option String) (d : String) : String :=
  match o with
  | none => d
  | some s => if s = "" then d else s

/-- JS `x || 0` for a numeric cell (`dataProcessor.js` line 102); note that
`some 0 || 0` and `none || 0` both yield `0`, so plain defaulting is exact. -/
def orElseQ : Option ℚ → ℚ
  | none => 0
  | some q => q

/-- `DEPARTMENT_COLORS` (`dataProcessor.js` lines 9-24). -/
def DEPARTMENT_COLORS : List (String × List ℕ) :=
  [("Sales", [56, 189, 248]),
   ("Marketing", [244, 114, 182]),
   ("Customer Support", [52, 211, 153]),
   ("Executive Management", [167, 139, 250]),
   ("Value Engineering", [251, 191, 36]),
   ("Services", [34, 211, 238]),
   ("Ecosystem", [251, 113, 133]),
   ("Office Management", [74, 222, 128]),
   ("Legal", [251, 146, 60]),
   ("Finance", [192, 132, 252]),
   ("Operations", [14, 165, 233]),
   ("Product Management", [250, 204, 21]),
   ("HR", [129, 140, 248]),
   ("Engineering", [45, 212, 191])]

/-- `getDepartmentColor` (`dataProcessor.js` lines 58-60). -/
def getDepartmentColor (name : String) : List ℕ :=
  (DEPARTMENT_COLORS.lookup name).getD [128, 128, 128]

/-- The zoom level `7.5`, written in reduced constructor form so that kernel
evaluation (`decide`) can compare concrete zoom values against it. -/
def sevenHalf : ℚ := ⟨15, 2, by norm_num, by norm_num⟩

/-- One entry of `ZOOM_THRESHOLDS`; `max = none` models `Infinity`
(the comparisons `zoom >= Infinity` and `zoom > Infinity - 0.5` are always
false, which is exactly the behaviour of the `none` branch below). -/
structure Threshold where
  min : ℚ
  max : Option ℚ
deriving DecidableEq

/-- `ZOOM_THRESHOLDS` (`dataProcessor.js` lines 37-43). -/
def ZOOM_THRESHOLDS : List (String × Threshold) :=
  [("department", ⟨0, none⟩),
   ("trip", ⟨4, none⟩),
   ("purpose", ⟨4, none⟩),
   ("transport", ⟨6, none⟩),
   ("route", ⟨sevenHalf, none⟩)]    -- min: 7.5

/-- The body of `getLayerOpacity` once a threshold entry has been found
(`dataProcessor.js` lines 270-279).  Factored out so that the documented
fade-out behaviour for a finite `max` can be stated even though every entry of
the reference table has `max = Infinity`. -/
def opacityOfThreshold (t : Threshold) (currentZoom : ℚ) : ℚ :=
  if currentZoom < t.min then 0
  else
    match t.max with
    | none => 1                      -- zoom >= Infinity and zoom > Infinity - 0.5 are false
    | some m =>
        if m ≤ currentZoom then 0    -- if (currentZoom >= threshold.max) return 0
        else if m - 1/2 < currentZoom then (m - currentZoom) / (1/2)
        else 1

/-- `getLayerOpacity` (`dataProcessor.js` lines 266-280). -/
def getLayerOpacity (nodeType : String) (currentZoom : ℚ) : ℚ :=
  match ZOOM_THRESHOLDS.lookup nodeType with
  | none => 0                        -- if (!threshold) return 0
  | some t => opacityOfThreshold t currentZoom

/-- The five node kinds of the processed node set, in the order of
`ZOOM_THRESHOLDS`. -/
def nodeKinds : List String :=
  ["department", "trip", "purpose", "transport", "route"]

/-- The set of node kinds whose opacity is positive at a given zoom
(the `activeKinds` contract of the LOD policy, read off `getLayerOpacity`). -/
def activeKinds (currentZoom : ℚ) : List String :=
  nodeKinds.filter (fun k => 0 < getLayerOpacity k currentZoom)

/-- A department node (`dataProcessor.js` lines 76-85; `radius` is filled at
line 112, `x`, `y`, `textSize` at lines 148-150). -/
structure DeptNode (R : Type) where
  id : String
  name : String
  emissions : ℚ
  tripCount : ℕ
  color : List ℕ
  radius : R
  x : R
  y : R
  textSize : R
deriving DecidableEq

/-- A trip node (`dataProcessor.js` lines 94-105; `x`, `y`, `textSize` are
filled at lines 253-255). -/
structure TripNode (R : Type) where
  id : String
  department : String
  purpose : String
  transportMode : String
  route : String
  emissions : ℚ
  cost : ℚ
  color : List ℕ
  x : R
  y : R
  textSize : R
deriving DecidableEq

/-- A purpose-group node (`dataProcessor.js` lines 188-197). -/
structure PurposeGroupNode (R : Type) where
  id : String
  name : String
  department : String
  x : R
  y : R
  color : List ℕ
  radius : ℚ
deriving DecidableEq

/-- A transport-group node (`dataProcessor.js` lines 210-220). -/
structure TransportGroupNode (R : Type) where
  id : String
  name : String
  department : String
  purpose : String
  x : R
  y : R
  color : List ℕ
  radius : ℚ
deriving DecidableEq

/-- A route-group node (`dataProcessor.js` lines 234-245). -/
structure RouteGroupNode (R : Type) where
  id : String
  name : String
  department : String
  purpose : String
  transport : String
  x : R
  y : R
  color : List ℕ
  radius : ℚ
deriving DecidableEq

/-- The tagged union of the five node shapes pushed into the `nodes` array. -/
inductive Node (R : Type) where
  | dept : DeptNode R → Node R
  | purposeGroup : PurposeGroupNode R → Node R
  | transportGroup : TransportGroupNode R → Node R
  | routeGroup : RouteGroupNode R → Node R
  | trip : TripNode R → Node R
deriving DecidableEq

/-- The `id` field shared by every node shape. -/
def Node.id {R : Type} : Node R → String
  | .dept d => d.id
  | .purposeGroup g => g.id
  | .transportGroup g => g.id
  | .routeGroup g => g.id
  | .trip t => t.id

/-- Fuel-driven decimal digits of a natural number, most significant first
(the fuel makes the recursion structural, so the kernel can evaluate it). -/
def toDecimalAux : ℕ → ℕ → List Char
  | 0, _ => []
  | fuel + 1, n =>
      if n < 10 then [Nat.digitChar n]
      else toDecimalAux fuel (n / 10) ++ [Nat.digitChar (n % 10)]

/-- The decimal string a JS template literal produces for the nonnegative
integer `n` (`${k}` at `dataProcessor.js` line 235). -/
def toDecimal (n : ℕ) : String :=
  ⟨toDecimalAux (n + 1) n⟩

/-- Insert-or-update in an insertion-ordered association list: the JS pattern
`if (!m.has(k)) m.set(k, init); f(m.get(k))` on a `Map` (which preserves
insertion order, appending unknown keys at the end). -/
def upsert {α : Type} (k : String) (init : α) (f : α → α) :
    List (String × α) → List (String × α)
  | [] => [(k, f init)]
  | (k', v) :: rest =>
      if k' = k then (k', f v) :: rest else (k', v) :: upsert k init f rest

/-- The accumulator of the `rawData.forEach` loop of `processEmissionsData`
(`dataProcessor.js` lines 62-107).  `fallbacks` counts how many random trip-id
fallbacks (line 95) have been consumed from the id stream. -/
structure AggState (R : Type) where
  departments : List (String × DeptNode R)
  trips : List (TripNode R)
  totalEmissions : ℚ
  fallbacks : ℕ
deriving DecidableEq

/-- The fresh department record of `dataProcessor.js` lines 76-85. -/
def initDept (R : Type) [LinearOrderedField R] (deptName : String) : DeptNode R :=
  { id := "dept_" ++ deptName
  , name := deptName
  , emissions := 0
  , tripCount := 0
  , color := getDepartmentColor deptName
  , radius := 0            -- calculated later (line 112)
  , x := 0, y := 0         -- positioned later
  , textSize := 0 }        -- assigned during layout (line 150)

/-- The row guard of `dataProcessor.js` line 69:
`!row['Business Dept'] || !row['Carbon Emission']` skips the row, hence a row
is processed iff both cells are truthy. -/
def validRow (r : Row) : Bool :=
  truthyS r.businessDept && truthyN r.carbonEmission

/-- The department name of a processed row (the guard guarantees the cell is a
nonempty string, so `getD` is only a projection of `some`). -/
def rowDept (r : Row) : String :=
  r.businessDept.getD ""

/-- The trip-id string interpolated at `dataProcessor.js` line 95:
`row['Trip ID'] || Math.random().toString(36).substr(2, 9)`, with the random
fallback drawn from the id stream at index `fallbacks`. -/
def rowTid (idR : ℕ → String) (fallbacks : ℕ) (r : Row) : String :=
  if truthyS r.tripId then r.tripId.getD "" else idR fallbacks

/-- The trip object of `dataProcessor.js` lines 94-105. -/
def mkTrip (R : Type) [LinearOrderedField R] (tid : String) (r : Row) : TripNode R :=
  { id := "trip_" ++ tid
  , department := rowDept r
  , purpose := orElseS r.purpose "Other"
  , transportMode := orElseS r.shippingType "Other"
  , route := orElseS r.departureCity "Unknown" ++ " → "
               ++ orElseS r.arrivalCity "Unknown"
  , emissions := numOr0 r.carbonEmission    -- Number(..) || 0 (line 72)
  , cost := orElseQ r.netCosts
  , color := getDepartmentColor (rowDept r)
  , x := 0, y := 0       -- positioned later
  , textSize := 0 }      -- assigned during layout (line 255)

/-- One iteration of the `rawData.forEach` row loop
(`dataProcessor.js` lines 67-107). -/
def processRow {R : Type} [LinearOrderedField R] (idR : ℕ → String)
    (s : AggState R) (row : Row) : AggState R :=
  if validRow row then
    { departments :=
        upsert (rowDept row) (initDept R (rowDept row))
          (fun d => { d with emissions := d.emissions + numOr0 row.carbonEmission
                           , tripCount := d.tripCount + 1 })
          s.departments
    , trips := s.trips ++ [mkTrip R (rowTid idR s.fallbacks row) row]
    , totalEmissions := s.totalEmissions + numOr0 row.carbonEmission
    , fallbacks := if truthyS row.tripId then s.fallbacks else s.fallbacks + 1 }
  else s

/-- The whole row loop, from the empty accumulator. -/
def aggregate {R : Type} [LinearOrderedField R] (idR : ℕ → String)
    (rows : List Row) : AggState R :=
  rows.foldl (processRow idR) ⟨[], [], 0, 0⟩

/-- `trip.transportMode || 'Other'` (`dataProcessor.js` line 164). -/
def transportKeyOf {R : Type} (t : TripNode R) : String :=
  if t.transportMode = "" then "Other" else t.transportMode

/-- `trip.route || 'Unknown Route'` (`dataProcessor.js` line 169). -/
def routeKeyOf {R : Type} (t : TripNode R) : String :=
  if t.route = "" then "Unknown Route" else t.route

/-- The nested grouping Department → Purpose → Transport → Route built by
`dataProcessor.js` lines 156-172; each level is an insertion-ordered map and
trips are appended at the end of their route list. -/
abbrev RouteMap (R : Type) := List (String × List (TripNode R))
abbrev TransportMap (R : Type) := List (String × RouteMap R)
abbrev PurposeMap (R : Type) := List (String × TransportMap R)
abbrev DeptGroups (R : Type) := List (String × PurposeMap R)

/-- One iteration of the grouping loop (`dataProcessor.js` lines 157-172). -/
def insertTrip {R : Type} (g : DeptGroups R) (t : TripNode R) : DeptGroups R :=
  upsert t.department []
    (fun purposeMap =>
      upsert t.purpose []
        (fun transportMap =>
          upsert (transportKeyOf t) []
            (fun routeMap =>
              upsert (routeKeyOf t) [] (fun l => l ++ [t]) routeMap)
            transportMap)
        purposeMap)
    g

/-- The whole grouping loop (`dataProcessor.js` lines 156-172). -/
def groupTrips {R : Type} (trips : List (TripNode R)) : DeptGroups R :=
  trips.foldl insertTrip []

/-- `(n || 1)` on a collection length (`dataProcessor.js` lines 180, 203, 227). -/
def lengthOr1 (n : ℕ) : ℕ :=
  if n = 0 then 1 else n

/-- Department placement (`dataProcessor.js` lines 145-153), recursing with the
0-based index `i`: `r = 700·sqrt(i)`, `θ = i · (137.508·π/180)`. -/
def positionDeptsFrom {R : Type} [LinearOrderedField R] (M : JsMath R) (i : ℕ) :
    List (DeptNode R) → List (DeptNode R)
  | [] => []
  | d :: ds =>
      let r := 700 * M.sqrt (i : R)
      let theta := (i : R) * (137508/1000 * (M.pi / 180))
      { d with x := r * M.cos theta
             , y := r * M.sin theta
             , textSize := 32 + M.sqrt ((d.emissions : R) / 2000) * 12 }
        :: positionDeptsFrom M (i + 1) ds

/-- All departments positioned, starting at index `0`. -/
def positionDepts {R : Type} [LinearOrderedField R] (M : JsMath R)
    (ds : List (DeptNode R)) : List (DeptNode R) :=
  positionDeptsFrom M 0 ds

/-- Trip placement inside a route group (`dataProcessor.js` lines 249-257).
`c` is the index of the next unconsumed `Math.random()` value; each trip
consumes two: `r = 6 · sqrt(random()) · 0.8`, `angle = random() · 2 · π`. -/
def placeTrips {R : Type} [LinearOrderedField R] (M : JsMath R) (rng : ℕ → R)
    (c : ℕ) (routeX routeY : R) :
    List (TripNode R) → List (Node R) × ℕ
  | [] => ([], c)
  | t :: ts =>
      let r := 6 * M.sqrt (rng c) * (8/10)
      let angle := rng (c + 1) * 2 * M.pi
      let t' := { t with x := routeX + r * M.cos angle
                       , y := routeY + r * M.sin angle
                       , textSize := 8 }
      let rest := placeTrips M rng (c + 2) routeX routeY ts
      (Node.trip t' :: rest.1, rest.2)

/-- Route-group placement inside a transport group
(`dataProcessor.js` lines 229-258), recursing with the 0-based index `k`. -/
def placeRoutes {R : Type} [LinearOrderedField R] (M : JsMath R) (rng : ℕ → R)
    (c : ℕ) (deptName purpose transport : String) (transportX transportY : R)
    (routeLayoutRadius routeAngleStep : R) (k : ℕ) :
    RouteMap R → List (Node R) × ℕ
  | [] => ([], c)
  | (route, tripList) :: rest =>
      let routeAngle := (k : R) * routeAngleStep
      let routeX := transportX + routeLayoutRadius * M.cos routeAngle
      let routeY := transportY + routeLayoutRadius * M.sin routeAngle
      let node : Node R := Node.routeGroup
        { id := "route_" ++ deptName ++ "_" ++ purpose ++ "_" ++ transport
                  ++ "_" ++ toDecimal k
        , name := route
        , department := deptName
        , purpose := purpose
        , transport := transport
        , x := routeX, y := routeY
        , color := getDepartmentColor deptName
        , radius := 8 }                       -- ROUTE_GROUP_RADIUS + 2 = 6 + 2
      let trips := placeTrips M rng c routeX routeY tripList
      let more := placeRoutes M rng trips.2 deptName purpose transport
        transportX transportY routeLayoutRadius routeAngleStep (k + 1) rest
      (node :: trips.1 ++ more.1, more.2)

/-- Transport-group placement inside a purpose group
(`dataProcessor.js` lines 205-259), recursing with the 0-based index `j`. -/
def placeTransports {R : Type} [LinearOrderedField R] (M : JsMath R) (rng : ℕ → R)
    (c : ℕ) (deptName purpose : String) (purposeX purposeY : R)
    (transportLayoutRadius transportAngleStep : R) (j : ℕ) :
    TransportMap R → List (Node R) × ℕ
  | [] => ([], c)
  | (transport, routeMap) :: rest =>
      let transportAngle := (j : R) * transportAngleStep
      let transportX := purposeX + transportLayoutRadius * M.cos transportAngle
      let transportY := purposeY + transportLayoutRadius * M.sin transportAngle
      let node : Node R := Node.transportGroup
        { id := "trans_" ++ deptName ++ "_" ++ purpose ++ "_" ++ transport
        , name := transport
        , department := deptName
        , purpose := purpose
        , x := transportX, y := transportY
        , color := getDepartmentColor deptName
        , radius := 32 }                      -- TRANSPORT_GROUP_RADIUS + 10 = 22 + 10
      -- const routeLayoutRadius = routes.length > 1 ? TRANSPORT_GROUP_RADIUS * 0.6 : 0;
      let routeLayoutRadius : R := if 1 < routeMap.length then 22 * (6/10) else 0
      let routeAngleStep : R := 2 * M.pi / ((lengthOr1 routeMap.length : ℕ) : R)
      let routes := placeRoutes M rng c deptName purpose transport
        transportX transportY routeLayoutRadius routeAngleStep 0 routeMap
      let more := placeTransports M rng routes.2 deptName purpose
        purposeX purposeY transportLayoutRadius transportAngleStep (j + 1) rest
      (node :: routes.1 ++ more.1, more.2)

/-- Purpose-group placement around a department
(`dataProcessor.js` lines 182-260), recursing with the 0-based index `i`. -/
def placePurposes {R : Type} [LinearOrderedField R] (M : JsMath R) (rng : ℕ → R)
    (c : ℕ) (deptName : String) (deptX deptY : R) (purposeAngleStep : R) (i : ℕ) :
    PurposeMap R → List (Node R) × ℕ
  | [] => ([], c)
  | (purpose, transportMap) :: rest =>
      let purposeAngle := (i : R) * purposeAngleStep
      let purposeX := deptX + 180 * M.cos purposeAngle   -- DEPT_CLUSTER_RADIUS = 180
      let purposeY := deptY + 180 * M.sin purposeAngle
      let node : Node R := Node.purposeGroup
        { id := "group_" ++ deptName ++ "_" ++ purpose
        , name := purpose
        , department := deptName
        , x := purposeX, y := purposeY
        , color := getDepartmentColor deptName
        , radius := 95 }                      -- PURPOSE_GROUP_RADIUS + 20 = 75 + 20
      -- const transportLayoutRadius = transports.length > 1 ? PURPOSE_GROUP_RADIUS * 0.65 : 0;
      let transportLayoutRadius : R :=
        if 1 < transportMap.length then 75 * (65/100) else 0
      let transportAngleStep : R :=
        2 * M.pi / ((lengthOr1 transportMap.length : ℕ) : R)
      let transports := placeTransports M rng c deptName purpose
        purposeX purposeY transportLayoutRadius transportAngleStep 0 transportMap
      let more := placePurposes M rng transports.2 deptName deptX deptY
        purposeAngleStep (i + 1) rest
      (node :: transports.1 ++ more.1, more.2)

/-- The outer `deptGroups.forEach` loop (`dataProcessor.js` lines 175-261);
a department missing from `deptPositions` is skipped (line 177). -/
def placeDeptGroups {R : Type} [LinearOrderedField R] (M : JsMath R) (rng : ℕ → R)
    (c : ℕ) (deptPositions : List (String × (R × R))) :
    DeptGroups R → List (Node R) × ℕ
  | [] => ([], c)
  | (deptName, purposeMap) :: rest =>
      match deptPositions.lookup deptName with
      | none => placeDeptGroups M rng c deptPositions rest
      | some pos =>
          let purposeAngleStep : R :=
            2 * M.pi / ((lengthOr1 purposeMap.length : ℕ) : R)
          let block := placePurposes M rng c deptName pos.1 pos.2
            purposeAngleStep 0 purposeMap
          let more := placeDeptGroups M rng block.2 deptPositions rest
          (block.1 ++ more.1, more.2)

/-- `positionNodes` (`dataProcessor.js` lines 132-264): departments first, then
per-department purpose/transport/route/trip blocks. -/
def positionNodes {R : Type} [LinearOrderedField R] (M : JsMath R) (rng : ℕ → R)
    (departments : List (DeptNode R)) (trips : List (TripNode R)) :
    List (Node R) :=
  let positioned := positionDepts M departments
  let deptPositions := positioned.map (fun d => (d.name, (d.x, d.y)))
  let deptGroups := groupTrips trips
  (positioned.map Node.dept) ++ (placeDeptGroups M rng 0 deptPositions deptGroups).1

/-- The record returned by `processEmissionsData`
(`dataProcessor.js` lines 120-128). -/
structure ProcessResult (R : Type) where
  nodes : List (Node R)
  departments : List (DeptNode R)
  totalEmissions : ℚ
  countsDepartments : ℕ
  countsTrips : ℕ
deriving DecidableEq

/-- `processEmissionsData` (`dataProcessor.js` lines 62-129): the row loop, the
department radius pass (line 112: `radius = 100 + sqrt(emissions)·0.5`), the
call to `positionNodes`, and the result record.  Because `positionNodes`
mutates the department objects in place, the returned `departments` array is
the positioned one; this is modelled by applying `positionDepts` to it. -/
def processEmissionsData {R : Type} [LinearOrderedField R] (M : JsMath R)
    (rng : ℕ → R) (idR : ℕ → String) (rawData : List Row) : ProcessResult R :=
  let s : AggState R := aggregate idR rawData
  let deptVals := s.departments.map
    (fun kv => { kv.2 with radius := 100 + M.sqrt ((kv.2.emissions : R)) * (1/2) })
  { nodes := positionNodes M rng deptVals s.trips
  , departments := positionDepts M deptVals
  , totalEmissions := s.totalEmissions
  , countsDepartments := s.departments.length
  , countsTrips := s.trips.length }

/-- The type tag of a node, as compared by the `n.type === ...` filters of the
layer constructors. -/
def Node.typeTag {R : Type} : Node R → String
  | .dept _ => "department"
  | .purposeGroup _ => "purpose-group"
  | .transportGroup _ => "transport-group"
  | .routeGroup _ => "route-group"
  | .trip _ => "trip"

/-- The discrete content of one deck.gl layer descriptor: its stable `id`, the
filtered node list handed to `data`, the `pickable` flag, and the layer-level
`opacity` prop (deck.gl defaults it to `1` when a constructor does not set
it). -/
structure LayerDesc (R : Type) where
  id : String
  data : List (Node R)
  pickable : Bool
  opacity : ℚ
deriving DecidableEq

/-- `createTextLayer` (`app.js` layer file, lines 243-288): only the
`department` entry exists in `config`, every other node type yields `null`. -/
def createTextLayer {R : Type} (nodes : List (Node R)) (nodeType : String)
    (opacity : ℚ) : Option (LayerDesc R) :=
  let filteredNodes := nodes.filter (fun n => n.typeTag = nodeType)
  if filteredNodes.length = 0 ∨ opacity ≤ 0 then none
  else if nodeType = "department" then
    some { id := nodeType ++ "-text-layer", data := filteredNodes
         , pickable := true, opacity := 1 }
  else none                                    -- const c = config[nodeType]; if (!c) return null

/-- `createDepartmentNodeLayer` (`app.js`, lines 290-312). -/
def createDepartmentNodeLayer {R : Type} (nodes : List (Node R))
    (opacity : ℚ) : Option (LayerDesc R) :=
  let filteredNodes := nodes.filter (fun n => n.typeTag = "department")
  if filteredNodes.length = 0 ∨ opacity ≤ 0 then none
  else some { id := "department-circle-layer", data := filteredNodes
            , pickable := true, opacity := opacity }

/-- `createPurposeHighlightLayer` (`app.js`, lines 315-332): note there is no
empty-data guard, only the zoom guard. -/
def createPurposeHighlightLayer {R : Type} (nodes : List (Node R))
    (currentZoom : ℚ) : Option (LayerDesc R) :=
  if currentZoom < 4 then none
  else some { id := "purpose-highlight-layer"
            , data := nodes.filter (fun n => n.typeTag = "purpose-group")
            , pickable := false, opacity := 1/5 }

/-- `createPurposeLabelLayer` (`app.js`, lines 335-357). -/
def createPurposeLabelLayer {R : Type} (nodes : List (Node R))
    (currentZoom : ℚ) : Option (LayerDesc R) :=
  if currentZoom < 4 then none
  else some { id := "purpose-label-layer"
            , data := nodes.filter (fun n => n.typeTag = "purpose-group")
            , pickable := false, opacity := 1 }

/-- `createTripLayer` (`app.js`, lines 359-384). -/
def createTripLayer {R : Type} (nodes : List (Node R))
    (opacity : ℚ) : Option (LayerDesc R) :=
  let filteredNodes := nodes.filter (fun n => n.typeTag = "trip")
  if filteredNodes.length = 0 ∨ opacity ≤ 0 then none
  else some { id := "trip-layer", data := filteredNodes
            , pickable := true, opacity := opacity }

/-- `createTransportHighlightLayer` (`app.js`, lines 387-406). -/
def createTransportHighlightLayer {R : Type} (nodes : List (Node R))
    (currentZoom : ℚ) : Option (LayerDesc R) :=
  if currentZoom < 6 then none
  else some { id := "transport-highlight-layer"
            , data := nodes.filter (fun n => n.typeTag = "transport-group")
            , pickable := false, opacity := 3/10 }

/-- `createTransportLabelLayer` (`app.js`, lines 409-431). -/
def createTransportLabelLayer {R : Type} (nodes : List (Node R))
    (currentZoom : ℚ) : Option (LayerDesc R) :=
  if currentZoom < 6 then none
  else some { id := "transport-label-layer"
            , data := nodes.filter (fun n => n.typeTag = "transport-group")
            , pickable := false, opacity := 1 }

/-- `createRouteHighlightLayer` (`app.js`, lines 434-453). -/
def createRouteHighlightLayer {R : Type} (nodes : List (Node R))
    (currentZoom : ℚ) : Option (LayerDesc R) :=
  if currentZoom < sevenHalf then none
  else some { id := "route-highlight-layer"
            , data := nodes.filter (fun n => n.typeTag = "route-group")
            , pickable := false, opacity := 2/5 }

/-- `createRouteLabelLayer` (`app.js`, lines 456-478). -/
def createRouteLabelLayer {R : Type} (nodes : List (Node R))
    (currentZoom : ℚ) : Option (LayerDesc R) :=
  if currentZoom < sevenHalf then none
  else some { id := "route-label-layer"
            , data := nodes.filter (fun n => n.typeTag = "route-group")
            , pickable := false, opacity := 1 }

/-- `createAllTextLayers` (`app.js`, lines 480-540): the bottom-to-top layer
list; `Option.toList` models `if (layer) layers.push(layer)`. -/
def createAllTextLayers {R : Type} (nodes : List (Node R))
    (currentZoom : ℚ) : List (LayerDesc R) :=
  let deptOpacity := getLayerOpacity "department" currentZoom
  let tripOpacity := getLayerOpacity "trip" currentZoom
  (if 4 ≤ currentZoom then (createPurposeHighlightLayer nodes currentZoom).toList
   else [])
  ++ (if 6 ≤ currentZoom then (createTransportHighlightLayer nodes currentZoom).toList
      else [])
  ++ (if sevenHalf ≤ currentZoom then (createRouteHighlightLayer nodes currentZoom).toList
      else [])
  ++ (if 0 < tripOpacity then (createTripLayer nodes tripOpacity).toList
      else [])
  ++ (if 6 ≤ currentZoom ∧ currentZoom < 12 then
        (createTransportLabelLayer nodes currentZoom).toList
      else [])
  ++ (if sevenHalf ≤ currentZoom then (createRouteLabelLayer nodes currentZoom).toList
      else [])
  ++ (if 4 ≤ currentZoom ∧ currentZoom < 12 then
        (createPurposeLabelLayer nodes currentZoom).toList
      else [])
  ++ (if 0 < deptOpacity then
        (createDepartmentNodeLayer nodes deptOpacity).toList
          ++ (createTextLayer nodes "department" deptOpacity).toList
      else [])

/-- `createSearchHighlightLayer` (`app.js`, lines 553-569). -/
def createSearchHighlightLayer {R : Type} (matchingNodes : List (Node R)) :
    Option (LayerDesc R) :=
  if matchingNodes.length = 0 then none
  else some { id := "search-highlight", data := matchingNodes
            , pickable := false, opacity := 1 }

/-- `getLayers` (`app.js`, lines 85-97): the search-highlight layer (if any) is
pushed first, then the `createAllTextLayers` list is appended.
`searchMatches = none` models the initial `null`. -/
def getLayers {R : Type} (searchMatches : Option (List (Node R)))
    (nodes : List (Node R)) (currentZoom : ℚ) : List (LayerDesc R) :=
  (match searchMatches with
   | some ms =>
       if 0 < ms.length then (createSearchHighlightLayer ms).toList else []
   | none => [])
  ++ createAllTextLayers nodes currentZoom

/-- The trip nodes of a node list. -/
def tripNodes {R : Type} (ns : List (Node R)) : List (TripNode R) :=
  ns.filterMap (fun n => match n with | .trip t => some t | _ => none)

/-- The purpose-group nodes of a node list. -/
def purposeGroupNodes {R : Type} (ns : List (Node R)) : List (PurposeGroupNode R) :=
  ns.filterMap (fun n => match n with | .purposeGroup g => some g | _ => none)

/-- The transport-group nodes of a node list. -/
def transportGroupNodes {R : Type} (ns : List (Node R)) :
    List (TransportGroupNode R) :=
  ns.filterMap (fun n => match n with | .transportGroup g => some g | _ => none)

/-- The route-group nodes of a node list. -/
def routeGroupNodes {R : Type} (ns : List (Node R)) : List (RouteGroupNode R) :=
  ns.filterMap (fun n => match n with | .routeGroup g => some g | _ => none)

/-- A dummy math backend over `ℚ`: the discrete fields of the pipeline output
(ids, names, aggregates, radii of group nodes, layer lists) do not depend on
the backend, so concrete evaluations may use it. -/
def mathQ : JsMath ℚ := ⟨0, fun _ => 0, fun _ => 0, fun _ => 0⟩

/-- A dummy random stream over `ℚ`. -/
def rngQ : ℕ → ℚ := fun _ => 0

/-- A dummy random-id stream. -/
def idRngQ : ℕ → String := fun n => "rand" ++ toDecimal n

/-- A complete sample row (spec §8, Scenario 1). -/
def sampleRow : Row :=
  ⟨some "Engineering", NumCell.num 500, some "T1", some "Training", some "Air",
   some "NYC", some "SF", some 1000⟩

/-- A second sample row sharing the department and the `Trip ID` of
`sampleRow` but with different emissions. -/
def sampleRowDupId : Row :=
  ⟨some "Engineering", NumCell.num 100, some "T1", some "Training", some "Air",
   some "NYC", some "SF", some 50⟩

/-- A row with no department cell. -/
def rowNoDept : Row :=
  ⟨none, NumCell.num 42, some "T9", some "Training", some "Air",
   some "NYC", some "SF", some 7⟩

/-- The node set processed from the single sample row. -/
def sampleNodes : List (Node ℚ) :=
  (processEmissionsData mathQ rngQ idRngQ [sampleRow]).nodes

/-- C5: with the reference `ZOOM_THRESHOLDS`, the set of node kinds whose
opacity is positive is exactly {department} at zoom 3.0, exactly
{department, trip, purpose} at zoom 5.0 (hence includes it), and all five
kinds at zoom 8.0. -/
theorem claim_C5_activeKinds :
    activeKinds 3 = ["department"]
    ∧ activeKinds 5 = ["department", "trip", "purpose"]
    ∧ activeKinds 8 = ["department", "trip", "purpose", "transport", "route"] := by
  decide

/-- C4: for every node kind with a threshold entry, `getLayerOpacity` agrees
with the per-threshold body and that value lies in `[0,1]`; it is `0` for any
zoom outside `[min, max)` (below `min`, or at or above a finite `max`), `1`
strictly inside the window when `max` is unbounded, and equal to the linear
fade `(max - zoom)/0.5` on the last `0.5` zoom units before a finite `max`. -/
theorem claim_C4_opacity (kind : String) (t : Threshold) (currentZoom : ℚ)
    (hl : ZOOM_THRESHOLDS.lookup kind = some t) :
    getLayerOpacity kind currentZoom = opacityOfThreshold t currentZoom
    ∧ 0 ≤ opacityOfThreshold t currentZoom
    ∧ opacityOfThreshold t currentZoom ≤ 1
    ∧ (currentZoom < t.min → opacityOfThreshold t currentZoom = 0)
    ∧ (∀ m, t.max = some m → m ≤ currentZoom →
         opacityOfThreshold t currentZoom = 0)
    ∧ (t.max = none → t.min < currentZoom →
         opacityOfThreshold t currentZoom = 1)
    ∧ (∀ m, t.max = some m → t.min ≤ currentZoom → m - 1/2 < currentZoom →
         currentZoom < m →
         opacityOfThreshold t currentZoom = (m - currentZoom) / (1/2)) := by
  obtain ⟨mn, mx⟩ := t
  refine ⟨by simp [getLayerOpacity, hl], ?_, ?_, ?_, ?_, ?_, ?_⟩
  · cases mx with
    | none =>
        simp only [opacityOfThreshold]
        split_ifs <;> norm_num
    | some m =>
        simp only [opacityOfThreshold]
        split_ifs with h1 h2 h3
        · norm_num
        · norm_num
        · exact div_nonneg (by linarith) (by norm_num)
        · norm_num
  · cases mx with
    | none =>
        simp only [opacityOfThreshold]
        split_ifs <;> norm_num
    | some m =>
        simp only [opacityOfThreshold]
        split_ifs with h1 h2 h3
        · norm_num
        · norm_num
        · rw [div_le_one (by norm_num : (0:ℚ) < 1/2)]
          linarith
        · norm_num
  · intro h
    unfold opacityOfThreshold
    rw [if_pos h]
  · intro m hm h
    subst hm
    unfold opacityOfThreshold
    split_ifs <;> simp_all
  · intro hm h
    subst hm
    unfold opacityOfThreshold
    rw [if_neg (by simp; linarith)]
  · intro m hm h1 h2 h3
    subst hm
    unfold opacityOfThreshold
    rw [if_neg (by simp; linarith)]
    simp only []
    rw [if_neg (by simp; linarith), if_pos h2]

/-- Witness for C4 at the concrete kind `"trip"` (entry `⟨4, none⟩`) and zoom
`5`: the opacity is `1`. -/
theorem claim_C4_opacity_witness :
    getLayerOpacity "trip" 5 = opacityOfThreshold ⟨4, none⟩ 5
    ∧ opacityOfThreshold ⟨4, none⟩ 5 = 1 := by
  have h := claim_C4_opacity "trip" ⟨4, none⟩ 5 (by decide)
  exact ⟨h.1, h.2.2.2.2.2.1 rfl (by norm_num)⟩

theorem sevenHalf_eq : sevenHalf = 15/2 := by
  rw [sevenHalf, Rat.mk'_eq_divInt, Rat.divInt_eq_div]
  norm_num

theorem getLayerOpacity_department (z : ℚ) :
    getLayerOpacity "department" z = if z < 0 then 0 else 1 := by
  have hl : ZOOM_THRESHOLDS.lookup "department" = some ⟨0, none⟩ := rfl
  simp [getLayerOpacity, hl, opacityOfThreshold]

theorem getLayerOpacity_trip (z : ℚ) :
    getLayerOpacity "trip" z = if z < 4 then 0 else 1 := by
  have hl : ZOOM_THRESHOLDS.lookup "trip" = some ⟨4, none⟩ := rfl
  simp [getLayerOpacity, hl, opacityOfThreshold]

theorem getLayerOpacity_purpose (z : ℚ) :
    getLayerOpacity "purpose" z = if z < 4 then 0 else 1 := by
  have hl : ZOOM_THRESHOLDS.lookup "purpose" = some ⟨4, none⟩ := rfl
  simp [getLayerOpacity, hl, opacityOfThreshold]

theorem getLayerOpacity_transport (z : ℚ) :
    getLayerOpacity "transport" z = if z < 6 then 0 else 1 := by
  have hl : ZOOM_THRESHOLDS.lookup "transport" = some ⟨6, none⟩ := rfl
  simp [getLayerOpacity, hl, opacityOfThreshold]

theorem getLayerOpacity_route (z : ℚ) :
    getLayerOpacity "route" z = if z < 15/2 then 0 else 1 := by
  have hl : ZOOM_THRESHOLDS.lookup "route" = some ⟨sevenHalf, none⟩ := rfl
  simp [getLayerOpacity, hl, opacityOfThreshold, sevenHalf_eq]

/-- C1 counterexample: for the single processed sample row (emissions `500`),
the one purpose-group node carries no aggregate field at all — its only
numeric metric, `radius`, is the constant `95`, which differs from the
emission sum `500` of the trip leaves in its subtree.  So an intermediate
group node does not carry an aggregate metric equal to that sum. -/
theorem claim_C1_counterexample :
    ((purposeGroupNodes sampleNodes).map (fun g => (g.id, g.radius)))
        = [("group_Engineering_Training", 95)]
    ∧ ((tripNodes sampleNodes).map (fun t => (t.department, t.purpose, t.emissions)))
        = [("Engineering", "Training", 500)]
    ∧ (95 : ℚ) ≠ 500 := by
  decide

/-- C2 counterexample: with a non-empty search-highlight set, `getLayers`
returns the highlight layer as the FIRST element; the last element of the
bottom-to-top list is the department text layer, not the highlight layer. -/
theorem claim_C2_counterexample :
    0 < (sampleNodes.take 1).length
    ∧ ((getLayers (some (sampleNodes.take 1)) sampleNodes 5).map LayerDesc.id)
        = ["search-highlight", "purpose-highlight-layer", "trip-layer",
           "purpose-label-layer", "department-circle-layer",
           "department-text-layer"]
    ∧ ((getLayers (some (sampleNodes.take 1)) sampleNodes 5).map
         LayerDesc.id).getLast? ≠ some "search-highlight" := by
  decide

/-- C3 counterexample: two processed rows sharing the truthy `Trip ID` value
`"T1"` produce two trip nodes with the identical id `"trip_T1"`, so the node
ids are not pairwise distinct for every input. -/
theorem claim_C3_counterexample :
    ¬ (((processEmissionsData mathQ rngQ idRngQ
          [sampleRow, sampleRowDupId]).nodes.map Node.id).Nodup)
    ∧ ((processEmissionsData mathQ rngQ idRngQ
          [sampleRow, sampleRowDupId]).nodes.map Node.id)
        = ["dept_Engineering", "group_Engineering_Training",
           "trans_Engineering_Training_Air", "route_Engineering_Training_Air_0",
           "trip_T1", "trip_T1"] := by
  decide

/-- C8 counterexample: the empty input does yield an empty node set, but the
scene composer at zoom `5` returns a non-empty layer list (the purpose
highlight and purpose label layers are created without any empty-data guard),
so the layer list is not empty at every zoom. -/
theorem claim_C8_counterexample :
    (processEmissionsData mathQ rngQ idRngQ []).nodes = []
    ∧ ((getLayers (R := ℚ) none [] 5).map LayerDesc.id)
        = ["purpose-highlight-layer", "purpose-label-layer"]
    ∧ getLayers (R := ℚ) none [] 5 ≠ [] := by
  decide

/-- C2 (amended): whenever the search-highlight set is non-empty, `getLayers`
places the search-highlight layer as the FIRST element of the bottom-to-top
layer list — it is drawn first, underneath every other layer — carrying the
full match set as data, not pickable, at layer-level opacity 1 (the deck.gl
default, independent of zoom). -/
theorem claim_C2_theorem {R : Type} [LinearOrderedField R]
    (searchMatches nodes : List (Node R)) (currentZoom : ℚ)
    (h : 0 < searchMatches.length) :
    (getLayers (some searchMatches) nodes currentZoom).head?
      = some ⟨"search-highlight", searchMatches, false, 1⟩ := by
  simp [getLayers, createSearchHighlightLayer, h, Nat.pos_iff_ne_zero.mp h]

/-- Witness for the amended C2 at a concrete non-empty highlight set. -/
theorem claim_C2_theorem_witness :
    (getLayers (some (sampleNodes.take 1)) sampleNodes 5).head?
      = some ⟨"search-highlight", sampleNodes.take 1, false, 1⟩ :=
  claim_C2_theorem (sampleNodes.take 1) sampleNodes 5 (by decide)

/-- C8 (amended): the empty input yields an empty node set, zero departments,
zero trips and zero total emissions; on that empty node set the scene composer
never fails: every layer it returns carries empty node data, and below zoom 4
the returned layer list is itself empty. -/
theorem claim_C8_theorem {R : Type} [LinearOrderedField R] (M : JsMath R)
    (rng : ℕ → R) (idR : ℕ → String) (currentZoom : ℚ) :
    (processEmissionsData M rng idR []).nodes = []
    ∧ (processEmissionsData M rng idR []).countsDepartments = 0
    ∧ (processEmissionsData M rng idR []).countsTrips = 0
    ∧ (processEmissionsData M rng idR []).totalEmissions = 0
    ∧ (∀ l ∈ getLayers (R := R) none [] currentZoom, l.data = [])
    ∧ (currentZoom < 4 → getLayers (R := R) none [] currentZoom = []) := by
  refine ⟨rfl, rfl, rfl, rfl, ?_, ?_⟩
  · intro l hl
    simp only [getLayers, createAllTextLayers, List.nil_append,
      List.mem_append] at hl
    rcases hl with ((((((h | h) | h) | h) | h) | h) | h) | h <;>
      split_ifs at h <;>
      simp_all [createPurposeHighlightLayer, createTransportHighlightLayer,
        createRouteHighlightLayer, createTripLayer, createTransportLabelLayer,
        createRouteLabelLayer, createPurposeLabelLayer,
        createDepartmentNodeLayer, createTextLayer] <;>
      (try subst h) <;> (try rfl)
  · intro h4
    have ht : getLayerOpacity "trip" currentZoom = 0 := by
      rw [getLayerOpacity_trip, if_pos h4]
    simp only [getLayers, createAllTextLayers, List.nil_append, ht]
    have h6 : ¬ (6 ≤ currentZoom) := by linarith
    have h75 : ¬ (sevenHalf ≤ currentZoom) := by
      rw [sevenHalf_eq]; linarith
    rw [if_neg (by linarith : ¬ (4 ≤ currentZoom)), if_neg h6, if_neg h75,
      if_neg (by norm_num : ¬ ((0:ℚ) < 0)),
      if_neg (by intro hc; exact h6 hc.1), if_neg h75,
      if_neg (by intro hc; exact absurd hc.1 (by linarith))]
    simp [createDepartmentNodeLayer, createTextLayer]

/-- Witness for the amended C8 at zoom 3 over `ℚ`. -/
theorem claim_C8_theorem_witness :
    (processEmissionsData mathQ rngQ idRngQ []).nodes = []
    ∧ getLayers (R := ℚ) none [] 3 = [] :=
  ⟨(claim_C8_theorem mathQ rngQ idRngQ 3).1,
   (claim_C8_theorem mathQ rngQ idRngQ 3).2.2.2.2.2 (by norm_num)⟩

theorem upsert_keys {α : Type} (k : String) (init : α) (f : α → α)
    (l : List (String × α)) :
    (upsert k init f l).map Prod.fst =
      if k ∈ l.map Prod.fst then l.map Prod.fst else l.map Prod.fst ++ [k] := by
  induction l with
  | nil => simp [upsert]
  | cons kv rest ih =>
      obtain ⟨k', v⟩ := kv
      by_cases h : k' = k
      · subst h; simp [upsert]
      · simp only [upsert, if_neg h, List.map_cons, ih]
        by_cases h2 : k ∈ rest.map Prod.fst
        · simp [h2, Ne.symm h]
        · simp [h2, Ne.symm h]

theorem mem_upsert {α : Type} {k : String} {init : α} {f : α → α}
    {l : List (String × α)} {kv : String × α} (h : kv ∈ upsert k init f l) :
    kv ∈ l ∨ kv = (k, f init) ∨ ∃ v, (k, v) ∈ l ∧ kv = (k, f v) := by
  induction l with
  | nil =>
      simp only [upsert] at h
      cases h with
      | head => exact Or.inr (Or.inl rfl)
      | tail _ h => cases h
  | cons kv' rest ih =>
      obtain ⟨k', v⟩ := kv'
      by_cases hk : k' = k
      · subst hk
        simp only [upsert, if_pos rfl] at h
        cases h with
        | head => exact Or.inr (Or.inr ⟨v, List.mem_cons_self _ _, rfl⟩)
        | tail _ h => exact Or.inl (List.mem_cons_of_mem _ h)
      · simp only [upsert, if_neg hk] at h
        cases h with
        | head => exact Or.inl (List.mem_cons_self _ _)
        | tail _ h =>
            rcases ih h with h' | h' | ⟨w, hw, hkv⟩
            · exact Or.inl (List.mem_cons_of_mem _ h')
            · exact Or.inr (Or.inl h')
            · exact Or.inr (Or.inr ⟨w, List.mem_cons_of_mem _ hw, hkv⟩)

theorem lookup_upsert_self {α : Type} (k : String) (init : α) (f : α → α)
    (l : List (String × α)) :
    (upsert k init f l).lookup k = some (f ((l.lookup k).getD init)) := by
  induction l with
  | nil => simp [upsert, List.lookup_cons]
  | cons kv rest ih =>
      obtain ⟨k', v⟩ := kv
      by_cases h : k' = k
      · subst h; simp [upsert, List.lookup_cons]
      · simp [upsert, List.lookup_cons, h, beq_false_of_ne (Ne.symm h), ih]

theorem lookup_upsert_ne {α : Type} (k : String) (init : α) (f : α → α)
    (l : List (String × α)) (k' : String) (h : k' ≠ k) :
    (upsert k init f l).lookup k' = l.lookup k' := by
  induction l with
  | nil => simp [upsert, List.lookup_cons, beq_false_of_ne h]
  | cons kv rest ih =>
      obtain ⟨k'', v⟩ := kv
      by_cases h2 : k'' = k
      · subst h2
        simp [upsert, List.lookup_cons, beq_false_of_ne h]
      · by_cases h3 : k'' = k'
        · subst h3; simp [upsert, List.lookup_cons, h2]
        · simp [upsert, List.lookup_cons, h2, beq_false_of_ne (Ne.symm h3), ih]

theorem lookup_of_mem_keysNodup {α : Type} {l : List (String × α)}
    {kv : String × α} (hn : (l.map Prod.fst).Nodup) (hm : kv ∈ l) :
    l.lookup kv.1 = some kv.2 := by
  induction l with
  | nil => simp at hm
  | cons kv' rest ih =>
      obtain ⟨k', v'⟩ := kv'
      simp only [List.map_cons, List.nodup_cons] at hn
      rcases List.mem_cons.mp hm with h | h
      · subst h; simp [List.lookup]
      · have hne : k' ≠ kv.1 := by
          intro he
          exact hn.1 (he ▸ (List.mem_map.mpr ⟨kv, h, rfl⟩))
        simp [List.lookup_cons, beq_false_of_ne (Ne.symm hne), ih hn.2 h]

theorem mem_of_lookup {α : Type} {l : List (String × α)} {k : String} {v : α}
    (h : l.lookup k = some v) : (k, v) ∈ l := by
  induction l with
  | nil => simp [List.lookup] at h
  | cons kv rest ih =>
      obtain ⟨k', v'⟩ := kv
      by_cases h2 : k' = k
      · subst h2
        simp only [List.lookup_cons, beq_self_eq_true] at h
        simp_all
      · simp only [List.lookup_cons, beq_false_of_ne (Ne.symm h2)] at h
        exact List.mem_cons_of_mem _ (ih h)

theorem aggregate_append {R : Type} [LinearOrderedField R] (idR : ℕ → String)
    (rows : List Row) (r : Row) :
    aggregate (R := R) idR (rows ++ [r]) = processRow idR (aggregate idR rows) r := by
  simp [aggregate, List.foldl_append]

/-- The rows of the input that the row loop charges to the department `name`. -/
def deptRows (rows : List Row) (name : String) : List Row :=
  rows.filter (fun r => validRow r && (rowDept r == name))

/-- Reference value of the department map at key `name`: `none` when no
processed row mentions the department, otherwise the accumulated record. -/
def deptAgg (R : Type) [LinearOrderedField R] (rows : List Row)
    (name : String) : Option (DeptNode R) :=
  if deptRows rows name = [] then none
  else some
    { id := "dept_" ++ name
    , name := name
    , emissions := ((deptRows rows name).map (fun r => numOr0 r.carbonEmission)).sum
    , tripCount := (deptRows rows name).length
    , color := getDepartmentColor name
    , radius := 0, x := 0, y := 0, textSize := 0 }

theorem aggregate_lookup {R : Type} [LinearOrderedField R] (idR : ℕ → String)
    (rows : List Row) (name : String) :
    ((aggregate (R := R) idR rows).departments).lookup name = deptAgg R rows name := by
  induction rows using List.reverseRecOn with
  | nil => simp [aggregate, deptAgg, deptRows]
  | append_singleton rs r ih =>
      rw [aggregate_append]
      by_cases hv : validRow r
      · simp only [processRow, if_pos hv]
        by_cases hd : rowDept r = name
        · subst hd
          rw [lookup_upsert_self, ih]
          have hstep : deptRows (rs ++ [r]) (rowDept r)
              = deptRows rs (rowDept r) ++ [r] := by
            simp [deptRows, List.filter_append, hv]
          simp only [deptAgg, hstep]
          by_cases h0 : deptRows rs (rowDept r) = []
          · simp [h0, initDept]
          · simp [h0, List.map_append, List.sum_append]
        · rw [lookup_upsert_ne _ _ _ _ _ (fun he => hd he.symm), ih]
          simp [deptAgg, deptRows, List.filter_append, hv, hd]
      · rw [processRow, if_neg hv, ih]
        simp only [Bool.not_eq_true] at hv
        simp [deptAgg, deptRows, List.filter_append, hv]

/-- The department names of the processed rows, in first-seen order (the
iteration order of the JS `Map`). -/
def firstSeenDepartments (rows : List Row) : List String :=
  rows.foldl
    (fun acc r => if validRow r ∧ rowDept r ∉ acc then acc ++ [rowDept r] else acc)
    []

theorem firstSeenDepartments_append (rows : List Row) (r : Row) :
    firstSeenDepartments (rows ++ [r])
      = if validRow r ∧ rowDept r ∉ firstSeenDepartments rows
        then firstSeenDepartments rows ++ [rowDept r]
        else firstSeenDepartments rows := by
  simp [firstSeenDepartments, List.foldl_append]

theorem aggregate_keys {R : Type} [LinearOrderedField R] (idR : ℕ → String)
    (rows : List Row) :
    ((aggregate (R := R) idR rows).departments).map Prod.fst
      = firstSeenDepartments rows := by
  induction rows using List.reverseRecOn with
  | nil => simp [aggregate, firstSeenDepartments]
  | append_singleton rs r ih =>
      rw [aggregate_append, firstSeenDepartments_append]
      by_cases hv : validRow r
      · simp only [processRow, if_pos hv]
        rw [upsert_keys, ih]
        by_cases hm : rowDept r ∈ firstSeenDepartments rs
        · simp [hm, hv]
        · simp [hm, hv]
      · rw [processRow, if_neg hv, ih]
        simp [hv]

theorem firstSeenDepartments_nodup (rows : List Row) :
    (firstSeenDepartments rows).Nodup := by
  induction rows using List.reverseRecOn with
  | nil => simp [firstSeenDepartments]
  | append_singleton rs r ih =>
      rw [firstSeenDepartments_append]
      by_cases h : validRow r ∧ rowDept r ∉ firstSeenDepartments rs
      · rw [if_pos h]
        refine List.Nodup.append ih (List.nodup_singleton _) ?_
        intro a ha hb
        rw [List.mem_singleton] at hb
        subst hb
        exact h.2 ha
      · simpa [h] using ih

theorem aggregate_entry_name {R : Type} [LinearOrderedField R]
    (idR : ℕ → String) (rows : List Row) :
    ∀ kv ∈ (aggregate (R := R) idR rows).departments, kv.1 = kv.2.name := by
  induction rows using List.reverseRecOn with
  | nil => simp [aggregate]
  | append_singleton rs r ih =>
      rw [aggregate_append]
      by_cases hv : validRow r
      · simp only [processRow, if_pos hv]
        intro kv hkv
        rcases mem_upsert hkv with h | h | ⟨v, hv', h⟩
        · exact ih kv h
        · simp [h, initDept]
        · have := ih (rowDept r, v) hv'
          simp_all
      · rw [processRow, if_neg hv]
        exact ih

theorem aggregate_trips_length {R : Type} [LinearOrderedField R]
    (idR : ℕ → String) (rows : List Row) :
    (aggregate (R := R) idR rows).trips.length = (rows.filter validRow).length := by
  induction rows using List.reverseRecOn with
  | nil => simp [aggregate]
  | append_singleton rs r ih =>
      rw [aggregate_append]
      by_cases hv : validRow r
      · simp only [processRow, if_pos hv]
        simp [List.filter_append, hv, ih]
      · rw [processRow, if_neg hv]
        simp only [Bool.not_eq_true] at hv
        simp [List.filter_append, hv, ih]

/-- Every accumulated trip satisfies a predicate that holds of every trip the
row loop can build from a processed row. -/
theorem aggregate_trips_pred {R : Type} [LinearOrderedField R]
    {idR : ℕ → String} {rows : List Row} (P : TripNode R → Prop)
    (hP : ∀ k r, r ∈ rows → validRow r → P (mkTrip R (rowTid idR k r) r)) :
    ∀ t ∈ (aggregate (R := R) idR rows).trips, P t := by
  induction rows using List.reverseRecOn with
  | nil => simp [aggregate]
  | append_singleton rs r ih =>
      rw [aggregate_append]
      by_cases hv : validRow r
      · simp only [processRow, if_pos hv]
        intro t ht
        rcases List.mem_append.mp ht with h | h
        · exact ih (fun k r' hr' hval => hP k r' (by simp [hr']) hval) t h
        · rcases List.mem_singleton.mp h with rfl
          exact hP _ r (by simp) hv
      · rw [processRow, if_neg hv]
        exact ih (fun k r' hr' hval => hP k r' (by simp [hr']) hval)

theorem processRow_skip {R : Type} [LinearOrderedField R] (idR : ℕ → String)
    (s : AggState R) (r : Row) (h : validRow r = false) :
    processRow idR s r = s := by
  rw [processRow, if_neg (by simp [h])]

theorem aggregate_middle_skip {R : Type} [LinearOrderedField R]
    (idR : ℕ → String) (rows₁ rows₂ : List Row) (r : Row)
    (h : validRow r = false) :
    aggregate (R := R) idR (rows₁ ++ r :: rows₂)
      = aggregate idR (rows₁ ++ rows₂) := by
  simp only [aggregate, List.foldl_append, List.foldl_cons]
  rw [processRow_skip idR _ r h]

/-- C7: a row with a falsy department cell is silently skipped — the entire
pipeline output (nodes, departments, totals, counts) is identical with or
without the row — and completing that row (truthy department and truthy
emission) makes the processed trip count exactly one larger. -/
theorem claim_C7_missing_department_skipped {R : Type} [LinearOrderedField R]
    (M : JsMath R) (rng : ℕ → R) (idR : ℕ → String)
    (rows₁ rows₂ : List Row) (r : Row)
    (hdept : truthyS r.businessDept = false) :
    processEmissionsData M rng idR (rows₁ ++ r :: rows₂)
      = processEmissionsData M rng idR (rows₁ ++ rows₂)
    ∧ ∀ d e, d ≠ "" → e ≠ 0 →
        (processEmissionsData M rng idR
          (rows₁ ++ { r with businessDept := some d
                           , carbonEmission := NumCell.num e } :: rows₂)).countsTrips
          = (processEmissionsData M rng idR (rows₁ ++ rows₂)).countsTrips + 1 := by
  constructor
  · have hagg := aggregate_middle_skip (R := R) idR rows₁ rows₂ r
      (by simp [validRow, hdept])
    simp only [processEmissionsData, hagg]
  · intro d e hd he
    have hv : validRow { r with businessDept := some d
                              , carbonEmission := NumCell.num e } = true := by
      simp [validRow, truthyS, truthyN, hd, he]
    show (aggregate (R := R) idR _).trips.length
        = (aggregate (R := R) idR _).trips.length + 1
    rw [aggregate_trips_length, aggregate_trips_length]
    simp [List.filter_append, hv]
    omega

/-- Witness for C7 on concrete rows. -/
theorem claim_C7_missing_department_skipped_witness :
    processEmissionsData mathQ rngQ idRngQ ([] ++ rowNoDept :: [sampleRow])
      = processEmissionsData mathQ rngQ idRngQ ([] ++ [sampleRow])
    ∧ (processEmissionsData mathQ rngQ idRngQ
        ([] ++ { rowNoDept with businessDept := some "Legal"
                              , carbonEmission := NumCell.num 42 } :: [sampleRow])).countsTrips
      = (processEmissionsData mathQ rngQ idRngQ ([] ++ [sampleRow])).countsTrips + 1 := by
  have h := claim_C7_missing_department_skipped mathQ rngQ idRngQ
    [] [sampleRow] rowNoDept (by decide)
  exact ⟨h.1, h.2 "Legal" 42 (by decide) (by decide)⟩

/-- The fields of a trip node that the layout never touches (everything except
`x`, `y`, `textSize`). -/
def TripNode.core {R : Type} (t : TripNode R) :
    String × String × String × String × String × ℚ × ℚ × List ℕ :=
  (t.id, t.department, t.purpose, t.transportMode, t.route,
   t.emissions, t.cost, t.color)

/-- All trips stored in an insertion-ordered map, flattened by a per-value
trip extractor. -/
def flatWith {α β : Type} (m : α → List β) : List (String × α) → List β
  | [] => []
  | (_, v) :: rest => m v ++ flatWith m rest

/-- The trips of a route map, in storage order. -/
def routeMapTrips {R : Type} (rm : RouteMap R) : List (TripNode R) :=
  flatWith (fun tl => tl) rm

/-- The trips of a transport map, in storage order. -/
def transportMapTrips {R : Type} (tm : TransportMap R) : List (TripNode R) :=
  flatWith routeMapTrips tm

/-- The trips of a purpose map, in storage order. -/
def purposeMapTrips {R : Type} (pm : PurposeMap R) : List (TripNode R) :=
  flatWith transportMapTrips pm

/-- The trips of the whole grouping, in storage order. -/
def deptGroupsTrips {R : Type} (g : DeptGroups R) : List (TripNode R) :=
  flatWith purposeMapTrips g

theorem upsert_flatWith_perm {α β : Type} (m : α → List β) (k : String)
    (init : α) (f : α → α) (l : List (String × α)) (x : β)
    (hf : ∀ v, List.Perm (m (f v)) (m v ++ [x])) (hinit : m init = []) :
    List.Perm (flatWith m (upsert k init f l)) (flatWith m l ++ [x]) := by
  induction l with
  | nil =>
      simp only [upsert, flatWith, List.append_nil, List.nil_append]
      simpa [hinit] using hf init
  | cons kv rest ih =>
      obtain ⟨k', v⟩ := kv
      by_cases h : k' = k
      · subst h
        simp only [upsert, if_pos rfl, flatWith]
        refine ((hf v).append_right _).trans ?_
        rw [List.append_assoc, List.append_assoc]
        exact List.Perm.append_left _ List.perm_append_comm
      · simp only [upsert, if_neg h, flatWith]
        refine (List.Perm.append_left _ ih).trans ?_
        rw [List.append_assoc]

theorem insertTrip_trips_perm {R : Type} (g : DeptGroups R) (t : TripNode R) :
    List.Perm (deptGroupsTrips (insertTrip g t)) (deptGroupsTrips g ++ [t]) := by
  refine upsert_flatWith_perm _ _ _ _ _ _ (fun pm => ?_) rfl
  refine upsert_flatWith_perm _ _ _ _ _ _ (fun tm => ?_) rfl
  refine upsert_flatWith_perm _ _ _ _ _ _ (fun rm => ?_) rfl
  refine upsert_flatWith_perm _ _ _ _ _ _ (fun tl => ?_) rfl
  exact List.Perm.refl _

theorem groupTrips_perm {R : Type} (trips : List (TripNode R)) :
    List.Perm (deptGroupsTrips (groupTrips trips)) trips := by
  induction trips using List.reverseRecOn with
  | nil => simp [groupTrips, deptGroupsTrips, flatWith]
  | append_singleton ts t ih =>
      have hfold : groupTrips (ts ++ [t]) = insertTrip (groupTrips ts) t := by
        simp [groupTrips, List.foldl_append]
      rw [hfold]
      exact (insertTrip_trips_perm _ t).trans (ih.append_right [t])

theorem trip_origin_placeTrips {R : Type} [LinearOrderedField R]
    {M : JsMath R} {rng : ℕ → R} {c : ℕ} {rx ry : R} {tl : List (TripNode R)}
    {t' : TripNode R} (h : Node.trip t' ∈ (placeTrips M rng c rx ry tl).1) :
    ∃ t ∈ tl, t'.core = t.core := by
  induction tl generalizing c with
  | nil => simp [placeTrips] at h
  | cons t ts ih =>
      simp only [placeTrips] at h
      rcases List.mem_cons.mp h with h | h
      · have := congrArg Node.id h
        refine ⟨t, List.mem_cons_self _ _, ?_⟩
        cases h
        rfl
      · obtain ⟨w, hw, hcore⟩ := ih h
        exact ⟨w, List.mem_cons_of_mem _ hw, hcore⟩

theorem trip_origin_placeRoutes {R : Type} [LinearOrderedField R]
    {M : JsMath R} {rng : ℕ → R} {c : ℕ} {d p tr : String} {tX tY lr step : R}
    {k : ℕ} {rm : RouteMap R} {t' : TripNode R}
    (h : Node.trip t' ∈ (placeRoutes M rng c d p tr tX tY lr step k rm).1) :
    ∃ t ∈ routeMapTrips rm, t'.core = t.core := by
  induction rm generalizing c k with
  | nil => simp [placeRoutes] at h
  | cons kv rest ih =>
      obtain ⟨rk, tl⟩ := kv
      rcases List.mem_cons.mp h with h | h
      · exact absurd h (by simp)
      rcases List.mem_append.mp h with h | h
      · obtain ⟨t, ht, hcore⟩ := trip_origin_placeTrips h
        exact ⟨t, by simp [routeMapTrips, flatWith, ht], hcore⟩
      · obtain ⟨t, ht, hcore⟩ := ih h
        refine ⟨t, ?_, hcore⟩
        simp only [routeMapTrips, flatWith, List.mem_append] at ht ⊢
        exact Or.inr ht

theorem trip_origin_placeTransports {R : Type} [LinearOrderedField R]
    {M : JsMath R} {rng : ℕ → R} {c : ℕ} {d p : String} {pX pY lr step : R}
    {j : ℕ} {tm : TransportMap R} {t' : TripNode R}
    (h : Node.trip t' ∈ (placeTransports M rng c d p pX pY lr step j tm).1) :
    ∃ t ∈ transportMapTrips tm, t'.core = t.core := by
  induction tm generalizing c j with
  | nil => simp [placeTransports] at h
  | cons kv rest ih =>
      obtain ⟨tr, rm⟩ := kv
      rcases List.mem_cons.mp h with h | h
      · exact absurd h (by simp)
      rcases List.mem_append.mp h with h | h
      · obtain ⟨t, ht, hcore⟩ := trip_origin_placeRoutes h
        exact ⟨t, by simp [transportMapTrips, flatWith, ht], hcore⟩
      · obtain ⟨t, ht, hcore⟩ := ih h
        refine ⟨t, ?_, hcore⟩
        simp only [transportMapTrips, flatWith, List.mem_append] at ht ⊢
        exact Or.inr ht

theorem trip_origin_placePurposes {R : Type} [LinearOrderedField R]
    {M : JsMath R} {rng : ℕ → R} {c : ℕ} {d : String} {dX dY step : R}
    {i : ℕ} {pm : PurposeMap R} {t' : TripNode R}
    (h : Node.trip t' ∈ (placePurposes M rng c d dX dY step i pm).1) :
    ∃ t ∈ purposeMapTrips pm, t'.core = t.core := by
  induction pm generalizing c i with
  | nil => simp [placePurposes] at h
  | cons kv rest ih =>
      obtain ⟨p, tm⟩ := kv
      rcases List.mem_cons.mp h with h | h
      · exact absurd h (by simp)
      rcases List.mem_append.mp h with h | h
      · obtain ⟨t, ht, hcore⟩ := trip_origin_placeTransports h
        exact ⟨t, by simp [purposeMapTrips, flatWith, ht], hcore⟩
      · obtain ⟨t, ht, hcore⟩ := ih h
        refine ⟨t, ?_, hcore⟩
        simp only [purposeMapTrips, flatWith, List.mem_append] at ht ⊢
        exact Or.inr ht

theorem trip_origin_placeDeptGroups {R : Type} [LinearOrderedField R]
    {M : JsMath R} {rng : ℕ → R} {c : ℕ}
    {deptPositions : List (String × (R × R))} {g : DeptGroups R}
    {t' : TripNode R}
    (h : Node.trip t' ∈ (placeDeptGroups M rng c deptPositions g).1) :
    ∃ t ∈ deptGroupsTrips g, t'.core = t.core := by
  induction g generalizing c with
  | nil => simp [placeDeptGroups] at h
  | cons kv rest ih =>
      obtain ⟨d, pm⟩ := kv
      simp only [placeDeptGroups] at h
      cases hl : deptPositions.lookup d with
      | none =>
          rw [hl] at h
          obtain ⟨t, ht, hcore⟩ := ih h
          refine ⟨t, ?_, hcore⟩
          simp only [deptGroupsTrips, flatWith, List.mem_append] at ht ⊢
          exact Or.inr ht
      | some pos =>
          rw [hl] at h
          simp only [List.mem_append] at h
          rcases h with h | h
          · obtain ⟨t, ht, hcore⟩ := trip_origin_placePurposes h
            exact ⟨t, by simp [deptGroupsTrips, flatWith, ht], hcore⟩
          · obtain ⟨t, ht, hcore⟩ := ih h
            refine ⟨t, ?_, hcore⟩
            simp only [deptGroupsTrips, flatWith, List.mem_append] at ht ⊢
            exact Or.inr ht

/-- Every trip node of the positioned node set descends from an input trip,
with all non-geometry fields unchanged. -/
theorem trip_origin_positionNodes {R : Type} [LinearOrderedField R]
    {M : JsMath R} {rng : ℕ → R} {departments : List (DeptNode R)}
    {trips : List (TripNode R)} {t' : TripNode R}
    (h : Node.trip t' ∈ positionNodes M rng departments trips) :
    ∃ t ∈ trips, t'.core = t.core := by
  simp only [positionNodes, List.mem_append] at h
  rcases h with h | h
  · obtain ⟨d, _, hd⟩ := List.mem_map.mp h
    exact absurd hd (by simp)
  · obtain ⟨t, ht, hcore⟩ := trip_origin_placeDeptGroups h
    exact ⟨t, (groupTrips_perm trips).mem_iff.mp ht, hcore⟩

/-- A row whose emission cell is present but `0`. -/
def rowZeroEmission : Row :=
  ⟨some "Sales", NumCell.num 0, some "T7", some "Training", some "Sea",
   some "LA", some "SF", some 3⟩

/-- A row whose emission cell is a truthy non-numeric string, as
`dynamicTyping` leaves e.g. `"N/A"`. -/
def rowNACell : Row :=
  ⟨some "Sales", NumCell.str "N/A", some "T8", some "Training", some "Sea",
   some "LA", some "SF", some 3⟩

/-- Recognises an emission cell that `dynamicTyping` left as a string. -/
def NumCell.isStr : NumCell → Bool
  | .str _ => true
  | _ => false

/-- C10 counterexample: a truthy non-numeric emission cell (`"N/A"`, which
`dynamicTyping` leaves as a string) passes the `!row['Carbon Emission']`
guard of line 69, and `Number(..) || 0` at line 72 yields `0`, so a trip node
with zero emission does appear in the node set — refuting the clause that no
zero-emission trip node ever appears. -/
theorem claim_C10_counterexample :
    validRow rowNACell = true
    ∧ (tripNodes (processEmissionsData mathQ rngQ idRngQ
        [rowNACell]).nodes).map TripNode.emissions = [0] := by
  decide

/-- C10 (amended): a row whose emission cell is falsy — present but `0`, or
missing (which is also how an empty cell arrives after `dynamicTyping`) — is
skipped exactly like a row with a missing department: the whole pipeline
output is unchanged, even when the department cell is present; and no trip
node with zero emission appears in the node set PROVIDED no row's emission
cell is a leftover non-numeric string (such a cell is truthy, passes the
guard and `Number(..) || 0` maps it to `0`; see the counterexample). -/
theorem claim_C10_falsy_emission_skipped {R : Type} [LinearOrderedField R]
    (M : JsMath R) (rng : ℕ → R) (idR : ℕ → String)
    (rows₁ rows₂ : List Row) (r : Row)
    (hem : truthyN r.carbonEmission = false) :
    processEmissionsData M rng idR (rows₁ ++ r :: rows₂)
      = processEmissionsData M rng idR (rows₁ ++ rows₂)
    ∧ ∀ rows : List Row,
        (∀ r2 ∈ rows, r2.carbonEmission.isStr = false) →
        ∀ t : TripNode R,
          Node.trip t ∈ (processEmissionsData M rng idR rows).nodes →
          t.emissions ≠ 0 := by
  constructor
  · have hagg := aggregate_middle_skip (R := R) idR rows₁ rows₂ r
      (by simp [validRow, hem])
    simp only [processEmissionsData, hagg]
  · intro rows hnum t ht
    obtain ⟨t0, ht0, hcore⟩ := @trip_origin_positionNodes R _ M rng _ _ _ ht
    have hne : t0.emissions ≠ 0 := by
      refine @aggregate_trips_pred R _ idR rows
        (fun t => t.emissions ≠ 0) ?_ t0 ht0
      intro k r2 hr2 hv
      have h2 : truthyN r2.carbonEmission = true := by
        simp only [validRow, Bool.and_eq_true] at hv
        exact hv.2
      cases hce : r2.carbonEmission with
      | missing => rw [hce] at h2; simp [truthyN] at h2
      | num q =>
          rw [hce] at h2
          simp only [truthyN, decide_eq_true_eq] at h2
          simpa [mkTrip, numOr0, hce] using h2
      | str s =>
          have := hnum r2 hr2
          rw [hce] at this
          simp [NumCell.isStr] at this
    have hemeq : t.emissions = t0.emissions :=
      congrArg (fun c => c.2.2.2.2.2.1) hcore
    rw [hemeq]
    exact hne

/-- Witness for the amended C10: the zero-emission row is dropped from the
pipeline, and on the numeric-cell sample input every trip node has nonzero
emission. -/
theorem claim_C10_falsy_emission_skipped_witness :
    (processEmissionsData mathQ rngQ idRngQ ([] ++ rowZeroEmission :: [sampleRow])
      = processEmissionsData mathQ rngQ idRngQ ([] ++ [sampleRow]))
    ∧ ∀ t : TripNode ℚ,
        Node.trip t ∈ (processEmissionsData mathQ rngQ idRngQ [sampleRow]).nodes →
        t.emissions ≠ 0 := by
  have h := claim_C10_falsy_emission_skipped mathQ rngQ idRngQ [] [sampleRow]
    rowZeroEmission (by decide)
  exact ⟨h.1, h.2 [sampleRow] (by decide)⟩

/-- The group-radius invariant: every intermediate group node carries the
fixed radius of its level (95 / 32 / 8); no node kind stores a subtree
aggregate. -/
def GroupRadiiInv {R : Type} (n : Node R) : Prop :=
  match n with
  | .purposeGroup g => g.radius = 95
  | .transportGroup g => g.radius = 32
  | .routeGroup g => g.radius = 8
  | _ => True

theorem radiiInv_placeTrips {R : Type} [LinearOrderedField R]
    {M : JsMath R} {rng : ℕ → R} {c : ℕ} {rx ry : R} {tl : List (TripNode R)} :
    ∀ n ∈ (placeTrips M rng c rx ry tl).1, GroupRadiiInv n := by
  induction tl generalizing c with
  | nil => simp [placeTrips]
  | cons t ts ih =>
      intro n hn
      rcases List.mem_cons.mp hn with h | h
      · subst h; trivial
      · exact ih n h

theorem radiiInv_placeRoutes {R : Type} [LinearOrderedField R]
    {M : JsMath R} {rng : ℕ → R} {c : ℕ} {d p tr : String} {tX tY lr step : R}
    {k : ℕ} {rm : RouteMap R} :
    ∀ n ∈ (placeRoutes M rng c d p tr tX tY lr step k rm).1, GroupRadiiInv n := by
  induction rm generalizing c k with
  | nil => simp [placeRoutes]
  | cons kv rest ih =>
      obtain ⟨rk, tl⟩ := kv
      intro n hn
      rcases List.mem_cons.mp hn with h | h
      · subst h; rfl
      · rcases List.mem_append.mp h with h | h
        · exact radiiInv_placeTrips n h
        · exact ih n h

theorem radiiInv_placeTransports {R : Type} [LinearOrderedField R]
    {M : JsMath R} {rng : ℕ → R} {c : ℕ} {d p : String} {pX pY lr step : R}
    {j : ℕ} {tm : TransportMap R} :
    ∀ n ∈ (placeTransports M rng c d p pX pY lr step j tm).1, GroupRadiiInv n := by
  induction tm generalizing c j with
  | nil => simp [placeTransports]
  | cons kv rest ih =>
      obtain ⟨tr, rm⟩ := kv
      intro n hn
      rcases List.mem_cons.mp hn with h | h
      · subst h; rfl
      · rcases List.mem_append.mp h with h | h
        · exact radiiInv_placeRoutes n h
        · exact ih n h

theorem radiiInv_placePurposes {R : Type} [LinearOrderedField R]
    {M : JsMath R} {rng : ℕ → R} {c : ℕ} {d : String} {dX dY step : R}
    {i : ℕ} {pm : PurposeMap R} :
    ∀ n ∈ (placePurposes M rng c d dX dY step i pm).1, GroupRadiiInv n := by
  induction pm generalizing c i with
  | nil => simp [placePurposes]
  | cons kv rest ih =>
      obtain ⟨p, tm⟩ := kv
      intro n hn
      rcases List.mem_cons.mp hn with h | h
      · subst h; rfl
      · rcases List.mem_append.mp h with h | h
        · exact radiiInv_placeTransports n h
        · exact ih n h

theorem radiiInv_placeDeptGroups {R : Type} [LinearOrderedField R]
    {M : JsMath R} {rng : ℕ → R} {c : ℕ}
    {deptPositions : List (String × (R × R))} {g : DeptGroups R} :
    ∀ n ∈ (placeDeptGroups M rng c deptPositions g).1, GroupRadiiInv n := by
  induction g generalizing c with
  | nil => simp [placeDeptGroups]
  | cons kv rest ih =>
      obtain ⟨d, pm⟩ := kv
      intro n hn
      simp only [placeDeptGroups] at hn
      cases hl : deptPositions.lookup d with
      | none =>
          rw [hl] at hn
          exact ih n hn
      | some pos =>
          rw [hl] at hn
          rcases List.mem_append.mp hn with h | h
          · exact radiiInv_placePurposes n h
          · exact ih n h

theorem radiiInv_positionNodes {R : Type} [LinearOrderedField R]
    {M : JsMath R} {rng : ℕ → R} {departments : List (DeptNode R)}
    {trips : List (TripNode R)} :
    ∀ n ∈ positionNodes M rng departments trips, GroupRadiiInv n := by
  intro n hn
  simp only [positionNodes, List.mem_append] at hn
  rcases hn with h | h
  · obtain ⟨d, _, rfl⟩ := List.mem_map.mp h
    trivial
  · exact radiiInv_placeDeptGroups n h

theorem mem_positionDeptsFrom {R : Type} [LinearOrderedField R]
    {M : JsMath R} {i : ℕ} {ds : List (DeptNode R)} {d : DeptNode R}
    (h : d ∈ positionDeptsFrom M i ds) :
    ∃ d₀ ∈ ds, d.name = d₀.name ∧ d.emissions = d₀.emissions
      ∧ d.tripCount = d₀.tripCount ∧ d.id = d₀.id := by
  induction ds generalizing i with
  | nil => simp [positionDeptsFrom] at h
  | cons d₀ ds ih =>
      rcases List.mem_cons.mp h with h | h
      · exact ⟨d₀, List.mem_cons_self _ _, by subst h; exact ⟨rfl, rfl, rfl, rfl⟩⟩
      · obtain ⟨w, hw, hp⟩ := ih h
        exact ⟨w, List.mem_cons_of_mem _ hw, hp⟩

/-- C1 (amended): every Department node's `emissions` equals the sum of the
emission values of the rows assigned to it and its `tripCount` equals their
count; the intermediate Purpose/Transport/Route group nodes carry no
aggregate metric at all — their only numeric field, `radius`, is the fixed
per-level constant 95 / 32 / 8, independent of the subtree. -/
theorem claim_C1_department_sums {R : Type} [LinearOrderedField R]
    (M : JsMath R) (rng : ℕ → R) (idR : ℕ → String) (rows : List Row) :
    (∀ d ∈ (processEmissionsData M rng idR rows).departments,
        d.emissions
            = ((deptRows rows d.name).map (fun r => numOr0 r.carbonEmission)).sum
        ∧ d.tripCount = (deptRows rows d.name).length)
    ∧ (∀ g : PurposeGroupNode R,
        Node.purposeGroup g ∈ (processEmissionsData M rng idR rows).nodes →
        g.radius = 95)
    ∧ (∀ g : TransportGroupNode R,
        Node.transportGroup g ∈ (processEmissionsData M rng idR rows).nodes →
        g.radius = 32)
    ∧ (∀ g : RouteGroupNode R,
        Node.routeGroup g ∈ (processEmissionsData M rng idR rows).nodes →
        g.radius = 8) := by
  refine ⟨?_, ?_, ?_, ?_⟩
  · intro d hd
    obtain ⟨d₀, hd₀, hname, hemi, hcount, _⟩ := mem_positionDeptsFrom hd
    obtain ⟨kv, hkv, hd0eq⟩ := List.mem_map.mp hd₀
    have hkeys : (((aggregate (R := R) idR rows).departments).map Prod.fst).Nodup := by
      rw [aggregate_keys]
      exact firstSeenDepartments_nodup rows
    have hlk := lookup_of_mem_keysNodup hkeys hkv
    rw [aggregate_lookup] at hlk
    rw [deptAgg] at hlk
    split at hlk
    · exact absurd hlk (by simp)
    · have hv := Option.some.inj hlk
      have hn2 : kv.2.name = kv.1 := by rw [← hv]
      have he2 : kv.2.emissions
          = ((deptRows rows kv.1).map (fun r => numOr0 r.carbonEmission)).sum := by
        rw [← hv]
      have hc2 : kv.2.tripCount = (deptRows rows kv.1).length := by rw [← hv]
      have hnd : d.name = kv.1 := by
        rw [hname, ← hd0eq] at *
        simpa [hn2] using hn2
      constructor
      · rw [hemi, ← hd0eq, hnd]
        simpa using he2
      · rw [hcount, ← hd0eq, hnd]
        simpa using hc2
  · intro g hg
    exact radiiInv_positionNodes _ hg
  · intro g hg
    exact radiiInv_positionNodes _ hg
  · intro g hg
    exact radiiInv_positionNodes _ hg

/-- Witness for the amended C1: on the single sample row the one department
node sums to 500 over one trip, and the purpose-group radii are all 95. -/
theorem claim_C1_department_sums_witness :
    ((processEmissionsData mathQ rngQ idRngQ [sampleRow]).departments.map
        (fun d => (d.name, d.emissions, d.tripCount))) = [("Engineering", 500, 1)]
    ∧ (purposeGroupNodes sampleNodes).length = 1
    ∧ (purposeGroupNodes sampleNodes).map (fun g => g.radius)
        = List.replicate ((purposeGroupNodes sampleNodes).length) 95 := by
  have h := claim_C1_department_sums mathQ rngQ idRngQ [sampleRow]
  refine ⟨?_, by decide, ?_⟩
  · have hnames : ((processEmissionsData mathQ rngQ idRngQ
        [sampleRow]).departments.map (fun d => (d.name, d.tripCount)))
        = [("Engineering", 1)] := by decide
    cases hd : (processEmissionsData mathQ rngQ idRngQ [sampleRow]).departments with
    | nil => rw [hd] at hnames; simp at hnames
    | cons d rest =>
        rw [hd] at hnames
        cases rest with
        | cons d2 r2 => simp at hnames
        | nil =>
            simp only [List.map_cons, List.map_nil, List.cons.injEq,
              Prod.mk.injEq, and_true] at hnames
            have hmem : d ∈ (processEmissionsData mathQ rngQ idRngQ
                [sampleRow]).departments := by
              rw [hd]; exact List.mem_cons_self _ _
            have hsum := (h.1 d hmem).1
            simp only [List.map_cons, List.map_nil, List.cons.injEq,
              Prod.mk.injEq, and_true]
            refine ⟨hnames.1, ?_, hnames.2⟩
            have hfilter : deptRows [sampleRow] "Engineering" = [sampleRow] := by
              decide
            rw [hsum, hnames.1, hfilter]
            simp [sampleRow, numOr0]
  · refine List.eq_replicate_iff.mpr ⟨by simp, ?_⟩
    intro b hb
    obtain ⟨g, hg, rfl⟩ := List.mem_map.mp hb
    refine h.2.1 g ?_
    obtain ⟨n, hn, hng⟩ := List.mem_filterMap.mp hg
    cases n with
    | purposeGroup g2 =>
        simp only [Option.some.injEq] at hng
        subst hng
        simpa [sampleNodes] using hn
    | dept d2 => simp at hng
    | transportGroup g2 => simp at hng
    | routeGroup g2 => simp at hng
    | trip t2 => simp at hng

theorem positionDeptsFrom_length {R : Type} [LinearOrderedField R]
    (M : JsMath R) (j : ℕ) (ds : List (DeptNode R)) :
    (positionDeptsFrom M j ds).length = ds.length := by
  induction ds generalizing j with
  | nil => rfl
  | cons d rest ih => simp [positionDeptsFrom, ih]

theorem positionDeptsFrom_map_name {R : Type} [LinearOrderedField R]
    (M : JsMath R) (j : ℕ) (ds : List (DeptNode R)) :
    (positionDeptsFrom M j ds).map (fun d => d.name) = ds.map (fun d => d.name) := by
  induction ds generalizing j with
  | nil => rfl
  | cons d rest ih => simp [positionDeptsFrom, ih]

theorem positionDeptsFrom_get_pos {R : Type} [LinearOrderedField R]
    (M : JsMath R) (j : ℕ) (ds : List (DeptNode R)) (i : ℕ)
    (h : i < (positionDeptsFrom M j ds).length) :
    ((positionDeptsFrom M j ds).get ⟨i, h⟩).x
        = 700 * M.sqrt (((j + i : ℕ) : R))
            * M.cos (((j + i : ℕ) : R) * (137508/1000 * (M.pi / 180)))
    ∧ ((positionDeptsFrom M j ds).get ⟨i, h⟩).y
        = 700 * M.sqrt (((j + i : ℕ) : R))
            * M.sin (((j + i : ℕ) : R) * (137508/1000 * (M.pi / 180))) := by
  induction ds generalizing j i with
  | nil => simp [positionDeptsFrom] at h
  | cons d rest ih =>
      cases i with
      | zero => simp [positionDeptsFrom]
      | succ i =>
          have h' : i < (positionDeptsFrom M (j + 1) rest).length := by
            simpa [positionDeptsFrom] using h
          have hx := ih (j + 1) i h'
          have hj : j + 1 + i = j + (i + 1) := by omega
          rw [hj] at hx
          simpa [positionDeptsFrom] using hx

theorem aggregate_departments_idR {R : Type} [LinearOrderedField R]
    (idR idR' : ℕ → String) (rows : List Row) :
    (aggregate (R := R) idR rows).departments
      = (aggregate (R := R) idR' rows).departments := by
  induction rows using List.reverseRecOn with
  | nil => rfl
  | append_singleton rs r ih =>
      rw [aggregate_append, aggregate_append]
      by_cases hv : validRow r
      · simp only [processRow, if_pos hv, ih]
      · rw [processRow, if_neg (by simp [hv]), processRow,
          if_neg (by simp [hv])]
        exact ih

/-- C6: departments are laid out in first-seen insertion order, the `i`-th
(0-indexed) department sits at `x = r·cos θ`, `y = r·sin θ` with
`r = 700·sqrt(i)` and `θ = i · (137.508·π/180)`, and the department list —
positions included — is independent of both random streams, so re-running the
layout on the same input yields identical department positions. -/
theorem claim_C6_department_spiral {R : Type} [LinearOrderedField R]
    (M : JsMath R) (rng rng' : ℕ → R) (idR idR' : ℕ → String)
    (rows : List Row) (i : ℕ)
    (h : i < (processEmissionsData M rng idR rows).departments.length) :
    ((processEmissionsData M rng idR rows).departments.map (fun d => d.name))
        = firstSeenDepartments rows
    ∧ ((processEmissionsData M rng idR rows).departments.get ⟨i, h⟩).x
        = 700 * M.sqrt ((i : R))
            * M.cos ((i : R) * (137508/1000 * (M.pi / 180)))
    ∧ ((processEmissionsData M rng idR rows).departments.get ⟨i, h⟩).y
        = 700 * M.sqrt ((i : R))
            * M.sin ((i : R) * (137508/1000 * (M.pi / 180)))
    ∧ (processEmissionsData M rng idR rows).departments
        = (processEmissionsData M rng' idR' rows).departments := by
  refine ⟨?_, ?_, ?_, ?_⟩
  · show ((positionDepts M _).map (fun d => d.name)) = firstSeenDepartments rows
    rw [positionDepts, positionDeptsFrom_map_name]
    have hname := aggregate_entry_name (R := R) idR rows
    rw [← aggregate_keys (R := R) idR rows, List.map_map]
    refine List.map_congr_left (fun kv hkv => ?_)
    exact (hname kv hkv).symm
  · exact ((positionDeptsFrom_get_pos M 0 _ i h).1).trans (by norm_num)
  · exact ((positionDeptsFrom_get_pos M 0 _ i h).2).trans (by norm_num)
  · show positionDepts M _ = positionDepts M _
    rw [aggregate_departments_idR idR idR' rows]

/-- Witness for C6 on the single sample row: names in first-seen order and
stream-independence of the department list. -/
theorem claim_C6_department_spiral_witness :
    ((processEmissionsData mathQ rngQ idRngQ [sampleRow]).departments.map
        (fun d => d.name)) = firstSeenDepartments [sampleRow]
    ∧ (processEmissionsData mathQ rngQ idRngQ [sampleRow]).departments
        = (processEmissionsData mathQ (fun _ => 1/2) (fun _ => "z")
            [sampleRow]).departments :=
  ⟨(claim_C6_department_spiral mathQ rngQ (fun _ => 1/2) idRngQ (fun _ => "z")
      [sampleRow] 0 (by decide)).1,
   (claim_C6_department_spiral mathQ rngQ (fun _ => 1/2) idRngQ (fun _ => "z")
      [sampleRow] 0 (by decide)).2.2.2⟩

/-- Well-formedness of a route map under a department/purpose/transport path:
every stored trip carries exactly the keys of its bucket. -/
def RouteMapWF {R : Type} (d p tr : String) (rm : RouteMap R) : Prop :=
  ∀ kv ∈ rm, ∀ t ∈ kv.2,
    t.department = d ∧ t.purpose = p ∧ transportKeyOf t = tr ∧ routeKeyOf t = kv.1

/-- Well-formedness of a transport map under a department/purpose path. -/
def TransportMapWF {R : Type} (d p : String) (tm : TransportMap R) : Prop :=
  ∀ kv ∈ tm, RouteMapWF d p kv.1 kv.2

/-- Well-formedness of a purpose map under a department. -/
def PurposeMapWF {R : Type} (d : String) (pm : PurposeMap R) : Prop :=
  ∀ kv ∈ pm, TransportMapWF d kv.1 kv.2

/-- Well-formedness of the whole grouping. -/
def DeptGroupsWF {R : Type} (g : DeptGroups R) : Prop :=
  ∀ kv ∈ g, PurposeMapWF kv.1 kv.2

theorem routeMapWF_upsert {R : Type} {d p tr : String} {rm : RouteMap R}
    {t : TripNode R} (hWF : RouteMapWF d p tr rm) (hd : t.department = d)
    (hp : t.purpose = p) (htr : transportKeyOf t = tr) :
    RouteMapWF d p tr (upsert (routeKeyOf t) [] (fun l => l ++ [t]) rm) := by
  intro kv hkv
  rcases mem_upsert hkv with h | h | ⟨v, hv, h⟩
  · exact hWF kv h
  · subst h
    intro t' ht'
    simp only [List.nil_append, List.mem_singleton] at ht'
    subst ht'
    exact ⟨hd, hp, htr, rfl⟩
  · subst h
    intro t' ht'
    rcases List.mem_append.mp ht' with h2 | h2
    · exact hWF _ hv t' h2
    · rw [List.mem_singleton] at h2
      subst h2
      exact ⟨hd, hp, htr, rfl⟩

theorem transportMapWF_upsert {R : Type} {d p : String} {tm : TransportMap R}
    {t : TripNode R} (hWF : TransportMapWF d p tm) (hd : t.department = d)
    (hp : t.purpose = p) :
    TransportMapWF d p
      (upsert (transportKeyOf t) []
        (fun rm => upsert (routeKeyOf t) [] (fun l => l ++ [t]) rm) tm) := by
  intro kv hkv
  rcases mem_upsert hkv with h | h | ⟨v, hv, h⟩
  · exact hWF kv h
  · subst h
    exact routeMapWF_upsert (by intro kv h; simp at h) hd hp rfl
  · subst h
    exact routeMapWF_upsert (hWF _ hv) hd hp rfl

theorem purposeMapWF_upsert {R : Type} {d : String} {pm : PurposeMap R}
    {t : TripNode R} (hWF : PurposeMapWF d pm) (hd : t.department = d) :
    PurposeMapWF d
      (upsert t.purpose []
        (fun tm => upsert (transportKeyOf t) []
          (fun rm => upsert (routeKeyOf t) [] (fun l => l ++ [t]) rm) tm) pm) := by
  intro kv hkv
  rcases mem_upsert hkv with h | h | ⟨v, hv, h⟩
  · exact hWF kv h
  · subst h
    exact transportMapWF_upsert (by intro kv h; simp at h) hd rfl
  · subst h
    exact transportMapWF_upsert (hWF _ hv) hd rfl

theorem deptGroupsWF_insertTrip {R : Type} {g : DeptGroups R} {t : TripNode R}
    (hWF : DeptGroupsWF g) : DeptGroupsWF (insertTrip g t) := by
  intro kv hkv
  rcases mem_upsert hkv with h | h | ⟨v, hv, h⟩
  · exact hWF kv h
  · subst h
    exact purposeMapWF_upsert (by intro kv h; simp at h) rfl
  · subst h
    exact purposeMapWF_upsert (hWF _ hv) rfl

theorem groupTrips_wf {R : Type} (trips : List (TripNode R)) :
    DeptGroupsWF (groupTrips trips) := by
  induction trips using List.reverseRecOn with
  | nil => intro kv h; simp [groupTrips] at h
  | append_singleton ts t ih =>
      have hfold : groupTrips (ts ++ [t]) = insertTrip (groupTrips ts) t := by
        simp [groupTrips, List.foldl_append]
      rw [hfold]
      exact deptGroupsWF_insertTrip ih

theorem mem_placeTrips_pos {R : Type} [LinearOrderedField R] {M : JsMath R}
    {rng : ℕ → R} {c : ℕ} {rx ry : R} {tl : List (TripNode R)}
    {t' : TripNode R} (h : Node.trip t' ∈ (placeTrips M rng c rx ry tl).1) :
    ∃ c', t'.x = rx + 6 * M.sqrt (rng c') * (8/10)
                  * M.cos (rng (c' + 1) * 2 * M.pi)
        ∧ t'.y = ry + 6 * M.sqrt (rng c') * (8/10)
                  * M.sin (rng (c' + 1) * 2 * M.pi) := by
  induction tl generalizing c with
  | nil => simp [placeTrips] at h
  | cons t ts ih =>
      rcases List.mem_cons.mp h with h | h
      · injection h with h2
        subst h2
        exact ⟨c, rfl, rfl⟩
      · exact ih h

theorem mem_placeTrips_full {R : Type} [LinearOrderedField R] {M : JsMath R}
    {rng : ℕ → R} {c : ℕ} {rx ry : R} {tl : List (TripNode R)}
    {t' : TripNode R} (h : Node.trip t' ∈ (placeTrips M rng c rx ry tl).1) :
    ∃ t ∈ tl, t'.department = t.department ∧ t'.purpose = t.purpose
      ∧ t'.transportMode = t.transportMode ∧ t'.route = t.route
      ∧ ∃ c', t'.x = rx + 6 * M.sqrt (rng c') * (8/10)
                      * M.cos (rng (c' + 1) * 2 * M.pi)
            ∧ t'.y = ry + 6 * M.sqrt (rng c') * (8/10)
                      * M.sin (rng (c' + 1) * 2 * M.pi) := by
  induction tl generalizing c with
  | nil => simp [placeTrips] at h
  | cons t ts ih =>
      rcases List.mem_cons.mp h with h | h
      · injection h with h2
        subst h2
        exact ⟨t, List.mem_cons_self _ _, rfl, rfl, rfl, rfl, c, rfl, rfl⟩
      · obtain ⟨w, hw, hp⟩ := ih h
        exact ⟨w, List.mem_cons_of_mem _ hw, hp⟩

theorem trip_route_placeRoutes {R : Type} [LinearOrderedField R]
    {M : JsMath R} {rng : ℕ → R} {c : ℕ} {d p tr : String} {tX tY lr step : R}
    {k : ℕ} {rm : RouteMap R} {t' : TripNode R} (hWF : RouteMapWF d p tr rm)
    (h : Node.trip t' ∈ (placeRoutes M rng c d p tr tX tY lr step k rm).1) :
    ∃ g : RouteGroupNode R,
      Node.routeGroup g ∈ (placeRoutes M rng c d p tr tX tY lr step k rm).1
      ∧ g.department = t'.department ∧ g.purpose = t'.purpose
      ∧ g.transport = transportKeyOf t' ∧ g.name = routeKeyOf t'
      ∧ ∃ c', t'.x = g.x + 6 * M.sqrt (rng c') * (8/10)
                      * M.cos (rng (c' + 1) * 2 * M.pi)
            ∧ t'.y = g.y + 6 * M.sqrt (rng c') * (8/10)
                      * M.sin (rng (c' + 1) * 2 * M.pi) := by
  induction rm generalizing c k with
  | nil => simp [placeRoutes] at h
  | cons kv rest ih =>
      obtain ⟨rk, tl⟩ := kv
      rcases List.mem_cons.mp h with h | h
      · exact absurd h (by simp)
      rcases List.mem_append.mp h with h | h
      · obtain ⟨t, ht, hdept, hpurp, htm, hroute, c', hx, hy⟩ :=
          mem_placeTrips_full h
        obtain ⟨hk1, hk2, hk3, hk4⟩ := hWF (rk, tl) (List.mem_cons_self _ _) t ht
        refine ⟨_, List.mem_cons_self _ _, ?_, ?_, ?_, ?_, c', hx, hy⟩
        · show d = t'.department
          rw [hdept, hk1]
        · show p = t'.purpose
          rw [hpurp, hk2]
        · show tr = transportKeyOf t'
          rw [← hk3]
          simp [transportKeyOf, htm]
        · show rk = routeKeyOf t'
          have hk4' : routeKeyOf t = rk := hk4
          rw [← hk4']
          simp [routeKeyOf, hroute]
      · obtain ⟨g, hg, hprops⟩ :=
          ih (fun kv hkv => hWF kv (List.mem_cons_of_mem _ hkv)) h
        exact ⟨g, List.mem_cons_of_mem _ (List.mem_append_right _ hg), hprops⟩

theorem trip_route_placeTransports {R : Type} [LinearOrderedField R]
    {M : JsMath R} {rng : ℕ → R} {c : ℕ} {d p : String} {pX pY lr step : R}
    {j : ℕ} {tm : TransportMap R} {t' : TripNode R} (hWF : TransportMapWF d p tm)
    (h : Node.trip t' ∈ (placeTransports M rng c d p pX pY lr step j tm).1) :
    ∃ g : RouteGroupNode R,
      Node.routeGroup g ∈ (placeTransports M rng c d p pX pY lr step j tm).1
      ∧ g.department = t'.department ∧ g.purpose = t'.purpose
      ∧ g.transport = transportKeyOf t' ∧ g.name = routeKeyOf t'
      ∧ ∃ c', t'.x = g.x + 6 * M.sqrt (rng c') * (8/10)
                      * M.cos (rng (c' + 1) * 2 * M.pi)
            ∧ t'.y = g.y + 6 * M.sqrt (rng c') * (8/10)
                      * M.sin (rng (c' + 1) * 2 * M.pi) := by
  induction tm generalizing c j with
  | nil => simp [placeTransports] at h
  | cons kv rest ih =>
      obtain ⟨tr, rm⟩ := kv
      rcases List.mem_cons.mp h with h | h
      · exact absurd h (by simp)
      rcases List.mem_append.mp h with h | h
      · obtain ⟨g, hg, hprops⟩ :=
          trip_route_placeRoutes (hWF (tr, rm) (List.mem_cons_self _ _)) h
        exact ⟨g, List.mem_cons_of_mem _ (List.mem_append_left _ hg), hprops⟩
      · obtain ⟨g, hg, hprops⟩ :=
          ih (fun kv hkv => hWF kv (List.mem_cons_of_mem _ hkv)) h
        exact ⟨g, List.mem_cons_of_mem _ (List.mem_append_right _ hg), hprops⟩

theorem trip_route_placePurposes {R : Type} [LinearOrderedField R]
    {M : JsMath R} {rng : ℕ → R} {c : ℕ} {d : String} {dX dY step : R}
    {i : ℕ} {pm : PurposeMap R} {t' : TripNode R} (hWF : PurposeMapWF d pm)
    (h : Node.trip t' ∈ (placePurposes M rng c d dX dY step i pm).1) :
    ∃ g : RouteGroupNode R,
      Node.routeGroup g ∈ (placePurposes M rng c d dX dY step i pm).1
      ∧ g.department = t'.department ∧ g.purpose = t'.purpose
      ∧ g.transport = transportKeyOf t' ∧ g.name = routeKeyOf t'
      ∧ ∃ c', t'.x = g.x + 6 * M.sqrt (rng c') * (8/10)
                      * M.cos (rng (c' + 1) * 2 * M.pi)
            ∧ t'.y = g.y + 6 * M.sqrt (rng c') * (8/10)
                      * M.sin (rng (c' + 1) * 2 * M.pi) := by
  induction pm generalizing c i with
  | nil => simp [placePurposes] at h
  | cons kv rest ih =>
      obtain ⟨p, tm⟩ := kv
      rcases List.mem_cons.mp h with h | h
      · exact absurd h (by simp)
      rcases List.mem_append.mp h with h | h
      · obtain ⟨g, hg, hprops⟩ :=
          trip_route_placeTransports (hWF (p, tm) (List.mem_cons_self _ _)) h
        exact ⟨g, List.mem_cons_of_mem _ (List.mem_append_left _ hg), hprops⟩
      · obtain ⟨g, hg, hprops⟩ :=
          ih (fun kv hkv => hWF kv (List.mem_cons_of_mem _ hkv)) h
        exact ⟨g, List.mem_cons_of_mem _ (List.mem_append_right _ hg), hprops⟩

theorem trip_route_placeDeptGroups {R : Type} [LinearOrderedField R]
    {M : JsMath R} {rng : ℕ → R} {c : ℕ}
    {deptPositions : List (String × (R × R))} {grp : DeptGroups R}
    {t' : TripNode R} (hWF : DeptGroupsWF grp)
    (h : Node.trip t' ∈ (placeDeptGroups M rng c deptPositions grp).1) :
    ∃ g : RouteGroupNode R,
      Node.routeGroup g ∈ (placeDeptGroups M rng c deptPositions grp).1
      ∧ g.department = t'.department ∧ g.purpose = t'.purpose
      ∧ g.transport = transportKeyOf t' ∧ g.name = routeKeyOf t'
      ∧ ∃ c', t'.x = g.x + 6 * M.sqrt (rng c') * (8/10)
                      * M.cos (rng (c' + 1) * 2 * M.pi)
            ∧ t'.y = g.y + 6 * M.sqrt (rng c') * (8/10)
                      * M.sin (rng (c' + 1) * 2 * M.pi) := by
  induction grp generalizing c with
  | nil => simp [placeDeptGroups] at h
  | cons kv rest ih =>
      obtain ⟨d, pm⟩ := kv
      simp only [placeDeptGroups] at h ⊢
      cases hl : deptPositions.lookup d with
      | none =>
          rw [hl] at h
          exact ih (fun kv hkv => hWF kv (List.mem_cons_of_mem _ hkv)) h
      | some pos =>
          rw [hl] at h
          rcases List.mem_append.mp h with h | h
          · obtain ⟨g, hg, hprops⟩ :=
              trip_route_placePurposes (hWF (d, pm) (List.mem_cons_self _ _)) h
            exact ⟨g, List.mem_append_left _ hg, hprops⟩
          · obtain ⟨g, hg, hprops⟩ :=
              ih (fun kv hkv => hWF kv (List.mem_cons_of_mem _ hkv)) h
            exact ⟨g, List.mem_append_right _ hg, hprops⟩

/-- A trip extracted from a node list is a trip node of that list. -/
theorem mem_of_mem_tripNodes {R : Type} {ns : List (Node R)} {t : TripNode R}
    (h : t ∈ tripNodes ns) : Node.trip t ∈ ns := by
  obtain ⟨n, hn, hmatch⟩ := List.mem_filterMap.mp h
  cases n with
  | trip t2 =>
      simp only [Option.some.injEq] at hmatch
      subst hmatch
      exact hn
  | dept d => simp at hmatch
  | purposeGroup g => simp at hmatch
  | transportGroup g => simp at hmatch
  | routeGroup g => simp at hmatch

/-- C9: with the real `Math` library and any random stream with values in
`[0,1)`, every trip node is placed at
`r = 6·sqrt(U₁)·0.8`, `θ = U₂·2·π` from its route group's centre (the route
group matching its department/purpose/transport/route keys), hence strictly
inside the disk of radius `0.8 · ROUTE_GROUP_RADIUS = 4.8` centred there. -/
theorem claim_C9_trip_disk (rng : ℕ → ℝ)
    (hrng : ∀ n, 0 ≤ rng n ∧ rng n < 1) (idR : ℕ → String) (rows : List Row)
    (t : TripNode ℝ)
    (ht : Node.trip t ∈ (processEmissionsData
        ⟨Real.pi, Real.sqrt, Real.cos, Real.sin⟩ rng idR rows).nodes) :
    ∃ g : RouteGroupNode ℝ,
      Node.routeGroup g ∈ (processEmissionsData
        ⟨Real.pi, Real.sqrt, Real.cos, Real.sin⟩ rng idR rows).nodes
      ∧ g.department = t.department ∧ g.purpose = t.purpose
      ∧ g.transport = transportKeyOf t ∧ g.name = routeKeyOf t
      ∧ (∃ c, t.x = g.x + 6 * Real.sqrt (rng c) * (8/10)
                    * Real.cos (rng (c + 1) * 2 * Real.pi)
            ∧ t.y = g.y + 6 * Real.sqrt (rng c) * (8/10)
                    * Real.sin (rng (c + 1) * 2 * Real.pi))
      ∧ (t.x - g.x)^2 + (t.y - g.y)^2 < (6 * (8/10))^2 := by
  simp only [processEmissionsData, positionNodes] at ht ⊢
  rcases List.mem_append.mp ht with h | h
  · obtain ⟨d0, _, hd0⟩ := List.mem_map.mp h
    exact absurd hd0 (by simp)
  · obtain ⟨g, hg, h1, h2, h3, h4, c, hx, hy⟩ :=
      trip_route_placeDeptGroups (groupTrips_wf _) h
    refine ⟨g, List.mem_append_right _ hg, h1, h2, h3, h4, ⟨c, hx, hy⟩, ?_⟩
    obtain ⟨hu0, hu1⟩ := hrng c
    have hsq : Real.sqrt (rng c) ^ 2 = rng c := Real.sq_sqrt hu0
    have htrig := Real.cos_sq_add_sin_sq (rng (c + 1) * 2 * Real.pi)
    rw [hx, hy]
    calc (g.x + 6 * Real.sqrt (rng c) * (8/10)
            * Real.cos (rng (c + 1) * 2 * Real.pi) - g.x)^2
          + (g.y + 6 * Real.sqrt (rng c) * (8/10)
            * Real.sin (rng (c + 1) * 2 * Real.pi) - g.y)^2
        = (6 * Real.sqrt (rng c) * (8/10))^2
            * (Real.cos (rng (c + 1) * 2 * Real.pi) ^ 2
               + Real.sin (rng (c + 1) * 2 * Real.pi) ^ 2) := by ring
      _ = 36 * (64/100) * (Real.sqrt (rng c))^2 := by rw [htrig]; ring
      _ = 36 * (64/100) * rng c := by rw [hsq]
      _ < 36 * (64/100) * 1 := by
            exact mul_lt_mul_of_pos_left hu1 (by norm_num)
      _ = (6 * (8/10))^2 := by norm_num

/-- Witness for C9: the single placed sample trip (with the all-zero random
stream) lies strictly inside the 4.8-radius disk of its route group. -/
theorem claim_C9_trip_disk_witness :
    ∃ g : RouteGroupNode ℝ,
      Node.routeGroup g ∈ (processEmissionsData
        ⟨Real.pi, Real.sqrt, Real.cos, Real.sin⟩ (fun _ => 0) idRngQ
        [sampleRow]).nodes
      ∧ (((tripNodes (processEmissionsData
            ⟨Real.pi, Real.sqrt, Real.cos, Real.sin⟩ (fun _ => 0) idRngQ
            [sampleRow]).nodes).get ⟨0, by decide⟩).x - g.x)^2
        + (((tripNodes (processEmissionsData
            ⟨Real.pi, Real.sqrt, Real.cos, Real.sin⟩ (fun _ => 0) idRngQ
            [sampleRow]).nodes).get ⟨0, by decide⟩).y - g.y)^2
          < (6 * (8/10))^2 := by
  obtain ⟨g, hmem, _, _, _, _, _, hbound⟩ :=
    claim_C9_trip_disk (fun _ => 0)
      (fun _ => ⟨le_refl 0, by norm_num⟩) idRngQ [sampleRow]
      ((tripNodes (processEmissionsData
        ⟨Real.pi, Real.sqrt, Real.cos, Real.sin⟩ (fun _ => 0) idRngQ
        [sampleRow]).nodes).get ⟨0, by decide⟩)
      (mem_of_mem_tripNodes (List.get_mem _ _ _))
  exact ⟨g, hmem, hbound⟩

/-- A string without the `_` separator used by the id templates. -/
abbrev NoUnderscore (s : String) : Prop :=
  '_' ∉ s.data

/-- Splitting at the first underscore is unambiguous when both left parts are
underscore-free. -/
theorem usJoin_data {a b x y : List Char} (ha : '_' ∉ a) (hb : '_' ∉ b)
    (h : a ++ '_' :: x = b ++ '_' :: y) : a = b ∧ x = y := by
  induction a generalizing b with
  | nil =>
      cases b with
      | nil => simpa using h
      | cons c bs =>
          simp only [List.nil_append, List.cons_append, List.cons.injEq] at h
          refine absurd ?_ hb
          rw [← h.1]
          exact List.mem_cons_self _ _
  | cons c as ih =>
      cases b with
      | nil =>
          simp only [List.cons_append, List.nil_append, List.cons.injEq] at h
          refine absurd ?_ ha
          rw [h.1]
          exact List.mem_cons_self _ _
      | cons c2 bs =>
          simp only [List.cons_append, List.cons.injEq] at h
          obtain ⟨rfl, h2⟩ := h
          have ha2 : '_' ∉ as := fun hm => ha (List.mem_cons_of_mem _ hm)
          have hb2 : '_' ∉ bs := fun hm => hb (List.mem_cons_of_mem _ hm)
          obtain ⟨h3, h4⟩ := ih ha2 hb2 h2
          exact ⟨by rw [h3], h4⟩

/-- The id template of department nodes (`dataProcessor.js` line 77). -/
def deptIdStr (d : String) : String := "dept_" ++ d

/-- The id template of trip nodes (`dataProcessor.js` line 95). -/
def tripIdStr (w : String) : String := "trip_" ++ w

/-- The id template of purpose-group nodes (`dataProcessor.js` line 189). -/
def groupIdStr (d p : String) : String := "group_" ++ d ++ "_" ++ p

/-- The id template of transport-group nodes (`dataProcessor.js` line 211). -/
def transIdStr (d p tr : String) : String :=
  "trans_" ++ d ++ "_" ++ p ++ "_" ++ tr

/-- The id template of route-group nodes (`dataProcessor.js` line 235). -/
def routeIdStr (d p tr : String) (k : ℕ) : String :=
  "route_" ++ d ++ "_" ++ p ++ "_" ++ tr ++ "_" ++ toDecimal k

theorem deptIdStr_data (d : String) :
    (deptIdStr d).data = 'd' :: 'e' :: 'p' :: 't' :: '_' :: d.data := by
  simp [deptIdStr, String.data_append]

theorem tripIdStr_data (w : String) :
    (tripIdStr w).data = 't' :: 'r' :: 'i' :: 'p' :: '_' :: w.data := by
  simp [tripIdStr, String.data_append]

theorem groupIdStr_data (d p : String) :
    (groupIdStr d p).data
      = 'g' :: 'r' :: 'o' :: 'u' :: 'p' :: '_' :: (d.data ++ '_' :: p.data) := by
  simp [groupIdStr, String.data_append]

theorem transIdStr_data (d p tr : String) :
    (transIdStr d p tr).data
      = 't' :: 'r' :: 'a' :: 'n' :: 's' :: '_' ::
          (d.data ++ '_' :: (p.data ++ '_' :: tr.data)) := by
  simp [transIdStr, String.data_append]

theorem routeIdStr_data (d p tr : String) (k : ℕ) :
    (routeIdStr d p tr k).data
      = 'r' :: 'o' :: 'u' :: 't' :: 'e' :: '_' ::
          (d.data ++ '_' :: (p.data ++ '_' :: (tr.data ++ '_' :: (toDecimal k).data))) := by
  simp [routeIdStr, String.data_append]

theorem digitChar_val {m : ℕ} (h : m < 10) :
    (Nat.digitChar m).toNat - 48 = m := by
  interval_cases m <;> rfl

theorem digitChar_ne_underscore {m : ℕ} (h : m < 10) :
    Nat.digitChar m ≠ '_' := by
  interval_cases m <;> decide

theorem toDecimalAux_val (f : ℕ) : ∀ n, n < f →
    (toDecimalAux f n).foldl (fun a c => a * 10 + (c.toNat - 48)) 0 = n := by
  induction f with
  | zero => intro n h; omega
  | succ f ih =>
      intro n h
      by_cases h10 : n < 10
      · simp only [toDecimalAux, if_pos h10]
        simp only [List.foldl_cons, List.foldl_nil]
        rw [digitChar_val h10]
        omega
      · simp only [toDecimalAux, if_neg h10]
        rw [List.foldl_append, ih (n / 10) (by omega)]
        simp only [List.foldl_cons, List.foldl_nil]
        rw [digitChar_val (Nat.mod_lt _ (by norm_num))]
        omega

theorem toDecimalAux_noU (f : ℕ) : ∀ n, '_' ∉ toDecimalAux f n := by
  induction f with
  | zero => intro n; simp [toDecimalAux]
  | succ f ih =>
      intro n
      by_cases h10 : n < 10
      · simp only [toDecimalAux, if_pos h10, List.mem_singleton]
        exact fun hm => digitChar_ne_underscore h10 hm.symm
      · simp only [toDecimalAux, if_neg h10]
        intro hm
        rcases List.mem_append.mp hm with hm | hm
        · exact ih (n / 10) hm
        · rw [List.mem_singleton] at hm
          exact digitChar_ne_underscore (Nat.mod_lt _ (by norm_num)) hm.symm

theorem toDecimal_noU (n : ℕ) : '_' ∉ (toDecimal n).data :=
  toDecimalAux_noU (n + 1) n

theorem toDecimal_inj {m n : ℕ} (h : (toDecimal m).data = (toDecimal n).data) :
    m = n := by
  have h3 : toDecimalAux (m + 1) m = toDecimalAux (n + 1) n := h
  have hv := toDecimalAux_val (m + 1) m (by omega)
  rw [h3, toDecimalAux_val (n + 1) n (by omega)] at hv
  omega

theorem deptIdStr_inj {a b : String} (h : deptIdStr a = deptIdStr b) : a = b := by
  have h2 := congrArg String.data h
  rw [deptIdStr_data, deptIdStr_data] at h2
  simp only [List.cons.injEq, true_and] at h2
  exact String.ext h2

theorem tripIdStr_inj {a b : String} (h : tripIdStr a = tripIdStr b) : a = b := by
  have h2 := congrArg String.data h
  rw [tripIdStr_data, tripIdStr_data] at h2
  simp only [List.cons.injEq, true_and] at h2
  exact String.ext h2

theorem groupIdStr_cancel {d p p' : String}
    (h : groupIdStr d p = groupIdStr d p') : p = p' := by
  have h2 := congrArg String.data h
  rw [groupIdStr_data, groupIdStr_data] at h2
  simp only [List.cons.injEq, true_and] at h2
  have h3 := List.append_cancel_left h2
  simp only [List.cons.injEq, true_and] at h3
  exact String.ext h3

theorem groupIdStr_dept {d p d' p' : String} (hd : NoUnderscore d)
    (hd' : NoUnderscore d') (h : groupIdStr d p = groupIdStr d' p') : d = d' := by
  have h2 := congrArg String.data h
  rw [groupIdStr_data, groupIdStr_data] at h2
  simp only [List.cons.injEq, true_and] at h2
  exact String.ext (usJoin_data hd hd' h2).1

theorem transIdStr_cancel2 {d p tr tr' : String}
    (h : transIdStr d p tr = transIdStr d p tr') : tr = tr' := by
  have h2 := congrArg String.data h
  rw [transIdStr_data, transIdStr_data] at h2
  simp only [List.cons.injEq, true_and] at h2
  have h3 := List.append_cancel_left h2
  simp only [List.cons.injEq, true_and] at h3
  have h4 := List.append_cancel_left h3
  simp only [List.cons.injEq, true_and] at h4
  exact String.ext h4

theorem transIdStr_purpose {d p tr p' tr' : String} (hp : NoUnderscore p)
    (hp' : NoUnderscore p')
    (h : transIdStr d p tr = transIdStr d p' tr') : p = p' := by
  have h2 := congrArg String.data h
  rw [transIdStr_data, transIdStr_data] at h2
  simp only [List.cons.injEq, true_and] at h2
  have h3 := List.append_cancel_left h2
  simp only [List.cons.injEq, true_and] at h3
  exact String.ext (usJoin_data hp hp' h3).1

theorem transIdStr_dept {d p tr d' p' tr' : String} (hd : NoUnderscore d)
    (hd' : NoUnderscore d')
    (h : transIdStr d p tr = transIdStr d' p' tr') : d = d' := by
  have h2 := congrArg String.data h
  rw [transIdStr_data, transIdStr_data] at h2
  simp only [List.cons.injEq, true_and] at h2
  exact String.ext (usJoin_data hd hd' h2).1

theorem routeIdStr_cancel3 {d p tr : String} {k k' : ℕ}
    (h : routeIdStr d p tr k = routeIdStr d p tr k') : k = k' := by
  have h2 := congrArg String.data h
  rw [routeIdStr_data, routeIdStr_data] at h2
  simp only [List.cons.injEq, true_and] at h2
  have h3 := List.append_cancel_left h2
  simp only [List.cons.injEq, true_and] at h3
  have h4 := List.append_cancel_left h3
  simp only [List.cons.injEq, true_and] at h4
  have h5 := List.append_cancel_left h4
  simp only [List.cons.injEq, true_and] at h5
  exact toDecimal_inj h5

theorem routeIdStr_transport {d p tr tr' : String} {k k' : ℕ}
    (htr : NoUnderscore tr) (htr' : NoUnderscore tr')
    (h : routeIdStr d p tr k = routeIdStr d p tr' k') : tr = tr' := by
  have h2 := congrArg String.data h
  rw [routeIdStr_data, routeIdStr_data] at h2
  simp only [List.cons.injEq, true_and] at h2
  have h3 := List.append_cancel_left h2
  simp only [List.cons.injEq, true_and] at h3
  have h4 := List.append_cancel_left h3
  simp only [List.cons.injEq, true_and] at h4
  exact String.ext (usJoin_data htr htr' h4).1

theorem routeIdStr_purpose {d p tr p' tr' : String} {k k' : ℕ}
    (hp : NoUnderscore p) (hp' : NoUnderscore p')
    (h : routeIdStr d p tr k = routeIdStr d p' tr' k') : p = p' := by
  have h2 := congrArg String.data h
  rw [routeIdStr_data, routeIdStr_data] at h2
  simp only [List.cons.injEq, true_and] at h2
  have h3 := List.append_cancel_left h2
  simp only [List.cons.injEq, true_and] at h3
  exact String.ext (usJoin_data hp hp' h3).1

theorem routeIdStr_dept {d p tr d' p' tr' : String} {k k' : ℕ}
    (hd : NoUnderscore d) (hd' : NoUnderscore d')
    (h : routeIdStr d p tr k = routeIdStr d' p' tr' k') : d = d' := by
  have h2 := congrArg String.data h
  rw [routeIdStr_data, routeIdStr_data] at h2
  simp only [List.cons.injEq, true_and] at h2
  exact String.ext (usJoin_data hd hd' h2).1

theorem ne_dept_group (a d p : String) : deptIdStr a ≠ groupIdStr d p := by
  intro h
  have h2 := congrArg String.data h
  rw [deptIdStr_data, groupIdStr_data] at h2
  simp at h2

theorem ne_dept_trans (a d p tr : String) : deptIdStr a ≠ transIdStr d p tr := by
  intro h
  have h2 := congrArg String.data h
  rw [deptIdStr_data, transIdStr_data] at h2
  simp at h2

theorem ne_dept_route (a d p tr : String) (k : ℕ) :
    deptIdStr a ≠ routeIdStr d p tr k := by
  intro h
  have h2 := congrArg String.data h
  rw [deptIdStr_data, routeIdStr_data] at h2
  simp at h2

theorem ne_dept_trip (a w : String) : deptIdStr a ≠ tripIdStr w := by
  intro h
  have h2 := congrArg String.data h
  rw [deptIdStr_data, tripIdStr_data] at h2
  simp at h2

theorem ne_group_trans (a b d p tr : String) :
    groupIdStr a b ≠ transIdStr d p tr := by
  intro h
  have h2 := congrArg String.data h
  rw [groupIdStr_data, transIdStr_data] at h2
  simp at h2

theorem ne_group_route (a b d p tr : String) (k : ℕ) :
    groupIdStr a b ≠ routeIdStr d p tr k := by
  intro h
  have h2 := congrArg String.data h
  rw [groupIdStr_data, routeIdStr_data] at h2
  simp at h2

theorem ne_group_trip (a b w : String) : groupIdStr a b ≠ tripIdStr w := by
  intro h
  have h2 := congrArg String.data h
  rw [groupIdStr_data, tripIdStr_data] at h2
  simp at h2

theorem ne_trans_route (a b tu d p tr : String) (k : ℕ) :
    transIdStr a b tu ≠ routeIdStr d p tr k := by
  intro h
  have h2 := congrArg String.data h
  rw [transIdStr_data, routeIdStr_data] at h2
  simp at h2

theorem ne_trans_trip (a b tu w : String) : transIdStr a b tu ≠ tripIdStr w := by
  intro h
  have h2 := congrArg String.data h
  rw [transIdStr_data, tripIdStr_data] at h2
  simp at h2

theorem ne_route_trip (d p tr : String) (k : ℕ) (w : String) :
    routeIdStr d p tr k ≠ tripIdStr w := by
  intro h
  have h2 := congrArg String.data h
  rw [routeIdStr_data, tripIdStr_data] at h2
  simp at h2

/-- Positioning a trip keeps its id. -/
theorem placeTrips_map_id {R : Type} [LinearOrderedField R] (M : JsMath R)
    (rng : ℕ → R) (x y : R) (c : ℕ) (tl : List (TripNode R)) :
    ((placeTrips M rng c x y tl).1).map Node.id = tl.map TripNode.id := by
  induction tl generalizing c with
  | nil => simp [placeTrips]
  | cons t ts ih => simp [placeTrips, Node.id, ih]

theorem upsert_keys_nodup {α : Type} {l : List (String × α)}
    (h : (l.map Prod.fst).Nodup) (k : String) (init : α) (f : α → α) :
    ((upsert k init f l).map Prod.fst).Nodup := by
  rw [upsert_keys]
  split_ifs with hm
  · exact h
  · refine List.Nodup.append h (List.nodup_singleton _) ?_
    intro a ha hb
    rw [List.mem_singleton] at hb
    subst hb
    exact hm ha

theorem upsert_values {α : Type} {P : α → Prop} {l : List (String × α)}
    {k : String} {init : α} {f : α → α}
    (hl : ∀ kv ∈ l, P kv.2) (hinit : P (f init)) (hf : ∀ v, P v → P (f v)) :
    ∀ kv ∈ upsert k init f l, P kv.2 := by
  intro kv hm
  rcases mem_upsert hm with h | h | ⟨v, hv, h⟩
  · exact hl kv h
  · rw [h]
    exact hinit
  · rw [h]
    exact hf v (hl (k, v) hv)

/-- The key discipline that makes the composite node ids unambiguous: keys are
duplicate-free at the department, purpose and transport levels, and the keys
the id templates interpolate are underscore-free. -/
def GroupKeysInv {R : Type} (g : DeptGroups R) : Prop :=
  (g.map Prod.fst).Nodup ∧
  ∀ kv ∈ g, NoUnderscore kv.1 ∧ (kv.2.map Prod.fst).Nodup ∧
    ∀ kv2 ∈ kv.2, NoUnderscore kv2.1 ∧ (kv2.2.map Prod.fst).Nodup ∧
      ∀ kv3 ∈ kv2.2, NoUnderscore kv3.1

theorem groupKeysInv_insertTrip {R : Type} {g : DeptGroups R} {t : TripNode R}
    (h : GroupKeysInv g) (hd : NoUnderscore t.department)
    (hp : NoUnderscore t.purpose) (htr : NoUnderscore (transportKeyOf t)) :
    GroupKeysInv (insertTrip g t) := by
  obtain ⟨h1, h2⟩ := h
  refine ⟨upsert_keys_nodup h1 _ _ _, ?_⟩
  intro kv hm
  rcases mem_upsert hm with hold | heq | ⟨v, hv, heq⟩
  · exact h2 kv hold
  · rw [heq]
    refine ⟨hd, by simp [upsert], ?_⟩
    intro kv2 hm2
    simp only [upsert] at hm2
    rw [List.mem_singleton] at hm2
    rw [hm2]
    refine ⟨hp, by simp [upsert], ?_⟩
    intro kv3 hm3
    simp only [upsert] at hm3
    rw [List.mem_singleton] at hm3
    rw [hm3]
    exact htr
  · rw [heq]
    obtain ⟨_, hnodupV, hinner⟩ := h2 (t.department, v) hv
    refine ⟨hd, upsert_keys_nodup hnodupV _ _ _, ?_⟩
    intro kv2 hm2
    rcases mem_upsert hm2 with hold2 | heq2 | ⟨v2, hv2, heq2⟩
    · exact hinner kv2 hold2
    · rw [heq2]
      refine ⟨hp, by simp [upsert], ?_⟩
      intro kv3 hm3
      simp only [upsert] at hm3
      rw [List.mem_singleton] at hm3
      rw [hm3]
      exact htr
    · rw [heq2]
      obtain ⟨_, hnodupV2, hinner2⟩ := hinner (t.purpose, v2) hv2
      refine ⟨hp, upsert_keys_nodup hnodupV2 _ _ _, ?_⟩
      intro kv3 hm3
      rcases mem_upsert hm3 with hold3 | heq3 | ⟨v3, hv3, heq3⟩
      · exact hinner2 kv3 hold3
      · rw [heq3]
        exact htr
      · rw [heq3]
        exact htr

theorem groupTrips_keysInv {R : Type} {trips : List (TripNode R)}
    (h : ∀ t ∈ trips, NoUnderscore t.department ∧ NoUnderscore t.purpose ∧
          NoUnderscore (transportKeyOf t)) :
    GroupKeysInv (groupTrips trips) := by
  induction trips using List.reverseRecOn with
  | nil => exact ⟨List.nodup_nil, by simp [groupTrips]⟩
  | append_singleton ts t ih =>
      have hfold : groupTrips (ts ++ [t]) = insertTrip (groupTrips ts) t := by
        simp [groupTrips, List.foldl_append]
      rw [hfold]
      have hprev := ih (fun u hu => h u (by simp [hu]))
      have ht := h t (by simp)
      exact groupKeysInv_insertTrip hprev ht.1 ht.2.1 ht.2.2

/-- Every accumulated department entry stores a node whose id is the
`dept_`-template applied to its name (`dataProcessor.js` line 77). -/
theorem aggregate_entry_id {R : Type} [LinearOrderedField R]
    (idR : ℕ → String) (rows : List Row) :
    ∀ kv ∈ (aggregate (R := R) idR rows).departments,
      kv.2.id = "dept_" ++ kv.2.name := by
  induction rows using List.reverseRecOn with
  | nil => simp [aggregate]
  | append_singleton rs r ih =>
      rw [aggregate_append]
      by_cases hv : validRow r
      · simp only [processRow, if_pos hv]
        intro kv hkv
        rcases mem_upsert hkv with h | h | ⟨v, hv', h⟩
        · exact ih kv h
        · simp [h, initDept]
        · have := ih (rowDept r, v) hv'
          simp_all
      · rw [processRow, if_neg hv]
        exact ih

/-- When every processed row has a truthy Trip ID cell, the accumulated trip
ids are exactly the `trip_`-template applied to those cells, in row order. -/
theorem aggregate_trips_ids {R : Type} [LinearOrderedField R]
    (idR : ℕ → String) (rows : List Row)
    (htid : ∀ r ∈ rows, validRow r → truthyS r.tripId) :
    (aggregate (R := R) idR rows).trips.map TripNode.id
      = (rows.filter validRow).map (fun r => tripIdStr (r.tripId.getD "")) := by
  induction rows using List.reverseRecOn with
  | nil => simp [aggregate]
  | append_singleton rs r ih =>
      rw [aggregate_append]
      have ihv := ih (fun r' hr' hval => htid r' (by simp [hr']) hval)
      by_cases hv : validRow r
      · simp only [processRow, if_pos hv]
        rw [List.map_append, ihv, List.filter_append]
        simp only [List.filter_cons, hv, List.filter_nil, List.map_append]
        have htr : rowTid idR (aggregate (R := R) idR rs).fallbacks r
            = r.tripId.getD "" := by
          rw [rowTid, if_pos (htid r (by simp) hv)]
        simp [mkTrip, htr, tripIdStr]
      · rw [processRow, if_neg hv]
        rw [ihv, List.filter_append]
        simp only [Bool.not_eq_true] at hv
        simp [List.filter_cons, hv]

/-- Positioning a department keeps its id. -/
theorem positionDeptsFrom_map_id {R : Type} [LinearOrderedField R]
    (M : JsMath R) (i : ℕ) (ds : List (DeptNode R)) :
    (positionDeptsFrom M i ds).map DeptNode.id = ds.map DeptNode.id := by
  induction ds generalizing i with
  | nil => simp [positionDeptsFrom]
  | cons d rest ih => simp [positionDeptsFrom, ih]

/-- Route-level placement produces duplicate-free ids of the shapes
`route_<d>_<p>_<tr>_<j>` (with `j ≥ k`) and the stored trip ids. -/
theorem ids_nodup_placeRoutes {R : Type} [LinearOrderedField R]
    (M : JsMath R) (rng : ℕ → R) (d p tr : String) (tX tY lr step : R) :
    ∀ (k c : ℕ) (rm : RouteMap R),
      ((routeMapTrips rm).map TripNode.id).Nodup →
      (∀ t ∈ routeMapTrips rm, ∃ w, t.id = tripIdStr w) →
      (((placeRoutes M rng c d p tr tX tY lr step k rm).1).map Node.id).Nodup ∧
      ∀ s ∈ ((placeRoutes M rng c d p tr tX tY lr step k rm).1).map Node.id,
        (∃ j, k ≤ j ∧ s = routeIdStr d p tr j) ∨
        ∃ t ∈ routeMapTrips rm, s = t.id := by
  intro k c rm
  induction rm generalizing k c with
  | nil =>
      intro h1 h2
      constructor
      · simp [placeRoutes]
      · intro s hs
        simp [placeRoutes] at hs
  | cons kv rest ih =>
      obtain ⟨rk, tl⟩ := kv
      intro h1 h2
      have hsplit : routeMapTrips ((rk, tl) :: rest) = tl ++ routeMapTrips rest := rfl
      rw [hsplit, List.map_append, List.nodup_append] at h1
      obtain ⟨hA, hB, hAB⟩ := h1
      have h2l : ∀ t ∈ tl, ∃ w, t.id = tripIdStr w :=
        fun t ht => h2 t (List.mem_append_left _ ht)
      have h2r : ∀ t ∈ routeMapTrips rest, ∃ w, t.id = tripIdStr w :=
        fun t ht => h2 t (List.mem_append_right _ ht)
      have ihAll := fun c2 => ih (k + 1) c2 hB h2r
      simp only [placeRoutes, List.map_cons, List.map_append,
        placeTrips_map_id, Node.id]
      constructor
      · rw [List.nodup_append, List.nodup_cons]
        refine ⟨⟨?_, hA⟩, (ihAll _).1, ?_⟩
        · intro hmem
          rcases List.mem_map.mp hmem with ⟨t, ht, heq⟩
          obtain ⟨w, hw⟩ := h2l t ht
          rw [hw] at heq
          exact ne_route_trip d p tr k w heq.symm
        · intro s hs hs2
          rcases List.mem_cons.mp hs with rfl | hs
          · rcases (ihAll _).2 _ hs2 with ⟨j, hj, heq⟩ | ⟨t, ht, heq⟩
            · have := routeIdStr_cancel3 (heq : routeIdStr d p tr k = _)
              omega
            · obtain ⟨w, hw⟩ := h2r t ht
              rw [hw] at heq
              exact ne_route_trip d p tr k w heq
          · rcases List.mem_map.mp hs with ⟨t, ht, rfl⟩
            rcases (ihAll _).2 _ hs2 with ⟨j, hj, heq⟩ | ⟨t2, ht2, heq⟩
            · obtain ⟨w, hw⟩ := h2l t ht
              rw [hw] at heq
              exact ne_route_trip d p tr j w heq.symm
            · exact hAB (List.mem_map.mpr ⟨t, ht, rfl⟩)
                (heq ▸ List.mem_map.mpr ⟨t2, ht2, rfl⟩)
      · intro s hs
        rcases List.mem_append.mp hs with hs | hm
        · rcases List.mem_cons.mp hs with rfl | hs
          · exact Or.inl ⟨k, le_refl k, rfl⟩
          · rcases List.mem_map.mp hs with ⟨t, ht, rfl⟩
            exact Or.inr ⟨t, List.mem_append_left _ ht, rfl⟩
        · rcases (ihAll _).2 _ hm with ⟨j, hj, heq⟩ | ⟨t, ht, heq⟩
          · exact Or.inl ⟨j, by omega, heq⟩
          · exact Or.inr ⟨t, List.mem_append_right _ ht, heq⟩

/-- Transport-level placement produces duplicate-free ids of the shapes
`trans_<d>_<p>_<tr>`, `route_<d>_<p>_<tr>_<k>` (with `tr` a stored key) and
the stored trip ids, provided the transport keys are duplicate-free and
underscore-free. -/
theorem ids_nodup_placeTransports {R : Type} [LinearOrderedField R]
    (M : JsMath R) (rng : ℕ → R) (d p : String) (pX pY tlr tstep : R) :
    ∀ (j c : ℕ) (tm : TransportMap R),
      ((transportMapTrips tm).map TripNode.id).Nodup →
      (∀ t ∈ transportMapTrips tm, ∃ w, t.id = tripIdStr w) →
      (tm.map Prod.fst).Nodup →
      (∀ kv ∈ tm, NoUnderscore kv.1) →
      (((placeTransports M rng c d p pX pY tlr tstep j tm).1).map Node.id).Nodup ∧
      ∀ s ∈ ((placeTransports M rng c d p pX pY tlr tstep j tm).1).map Node.id,
        (∃ tr ∈ tm.map Prod.fst, s = transIdStr d p tr) ∨
        (∃ tr ∈ tm.map Prod.fst, ∃ k, s = routeIdStr d p tr k) ∨
        ∃ t ∈ transportMapTrips tm, s = t.id := by
  intro j c tm
  induction tm generalizing j c with
  | nil =>
      intro h1 h2 h3 h4
      constructor
      · simp [placeTransports]
      · intro s hs
        simp [placeTransports] at hs
  | cons kv rest ih =>
      obtain ⟨tr0, rm⟩ := kv
      intro h1 h2 h3 h4
      have hsplit : transportMapTrips ((tr0, rm) :: rest)
          = routeMapTrips rm ++ transportMapTrips rest := rfl
      rw [hsplit, List.map_append, List.nodup_append] at h1
      obtain ⟨hA, hB, hAB⟩ := h1
      have h2l : ∀ t ∈ routeMapTrips rm, ∃ w, t.id = tripIdStr w :=
        fun t ht => h2 t (List.mem_append_left _ ht)
      have h2r : ∀ t ∈ transportMapTrips rest, ∃ w, t.id = tripIdStr w :=
        fun t ht => h2 t (List.mem_append_right _ ht)
      rw [List.map_cons, List.nodup_cons] at h3
      obtain ⟨hkey, h3rest⟩ := h3
      have hnoU0 : NoUnderscore tr0 := h4 (tr0, rm) (List.mem_cons_self _ _)
      have h4rest : ∀ kv ∈ rest, NoUnderscore kv.1 :=
        fun kv hkv => h4 kv (List.mem_cons_of_mem _ hkv)
      have hnoUrest : ∀ tr ∈ rest.map Prod.fst, NoUnderscore tr := by
        intro tr htr
        rcases List.mem_map.mp htr with ⟨kv, hkv, rfl⟩
        exact h4rest kv hkv
      have ihAll := fun c2 => ih (j + 1) c2 hB h2r h3rest h4rest
      have hroute := fun (tX2 tY2 lr2 step2 : R) (c2 : ℕ) =>
        ids_nodup_placeRoutes M rng d p tr0 tX2 tY2 lr2 step2 0 c2 rm hA h2l
      simp only [placeTransports, List.map_cons, List.map_append, Node.id]
      constructor
      · rw [List.nodup_append, List.nodup_cons]
        refine ⟨⟨?_, (hroute _ _ _ _ _).1⟩, (ihAll _).1, ?_⟩
        · intro hmem
          rcases (hroute _ _ _ _ _).2 _ hmem with ⟨k2, _, heq⟩ | ⟨t, ht, heq⟩
          · exact ne_trans_route d p tr0 d p tr0 k2 heq
          · obtain ⟨w, hw⟩ := h2l t ht
            rw [hw] at heq
            exact ne_trans_trip d p tr0 w heq
        · intro s hs hs2
          rcases List.mem_cons.mp hs with rfl | hs
          · rcases (ihAll _).2 _ hs2 with ⟨tr2, htr2, heq⟩ |
              ⟨tr2, htr2, k2, heq⟩ | ⟨t, ht, heq⟩
            · exact hkey ((transIdStr_cancel2 heq) ▸ htr2)
            · exact ne_trans_route d p tr0 d p tr2 k2 heq
            · obtain ⟨w, hw⟩ := h2r t ht
              rw [hw] at heq
              exact ne_trans_trip d p tr0 w heq
          · rcases (hroute _ _ _ _ _).2 _ hs with ⟨k1, _, rfl⟩ | ⟨t, ht, rfl⟩
            · rcases (ihAll _).2 _ hs2 with ⟨tr2, htr2, heq⟩ |
                ⟨tr2, htr2, k2, heq⟩ | ⟨t2, ht2, heq⟩
              · exact ne_trans_route d p tr2 d p tr0 k1 heq.symm
              · exact hkey
                  ((routeIdStr_transport hnoU0 (hnoUrest tr2 htr2) heq) ▸ htr2)
              · obtain ⟨w, hw⟩ := h2r t2 ht2
                rw [hw] at heq
                exact ne_route_trip d p tr0 k1 w heq
            · rcases (ihAll _).2 _ hs2 with ⟨tr2, htr2, heq⟩ |
                ⟨tr2, htr2, k2, heq⟩ | ⟨t2, ht2, heq⟩
              · obtain ⟨w, hw⟩ := h2l t ht
                rw [hw] at heq
                exact ne_trans_trip d p tr2 w heq.symm
              · obtain ⟨w, hw⟩ := h2l t ht
                rw [hw] at heq
                exact ne_route_trip d p tr2 k2 w heq.symm
              · exact hAB (List.mem_map.mpr ⟨t, ht, rfl⟩)
                  (heq ▸ List.mem_map.mpr ⟨t2, ht2, rfl⟩)
      · intro s hs
        rcases List.mem_append.mp hs with hs | hm
        · rcases List.mem_cons.mp hs with rfl | hs
          · exact Or.inl ⟨tr0, by simp, rfl⟩
          · rcases (hroute _ _ _ _ _).2 _ hs with ⟨k1, _, rfl⟩ | ⟨t, ht, rfl⟩
            · exact Or.inr (Or.inl ⟨tr0, by simp, k1, rfl⟩)
            · exact Or.inr (Or.inr ⟨t, List.mem_append_left _ ht, rfl⟩)
        · rcases (ihAll _).2 _ hm with ⟨tr2, htr2, heq⟩ |
            ⟨tr2, htr2, k2, heq⟩ | ⟨t, ht, heq⟩
          · exact Or.inl ⟨tr2, by simp [htr2], heq⟩
          · exact Or.inr (Or.inl ⟨tr2, by simp [htr2], k2, heq⟩)
          · exact Or.inr (Or.inr ⟨t, List.mem_append_right _ ht, heq⟩)

/-- Purpose-level placement produces duplicate-free ids of the shapes
`group_<d>_<p>`, `trans_<d>_<p>_<tr>`, `route_<d>_<p>_<tr>_<k>` (with `p` a
stored key) and the stored trip ids, provided the purpose and transport keys
are duplicate-free and underscore-free. -/
theorem ids_nodup_placePurposes {R : Type} [LinearOrderedField R]
    (M : JsMath R) (rng : ℕ → R) (d : String) (dX dY pstep : R) :
    ∀ (i c : ℕ) (pm : PurposeMap R),
      ((purposeMapTrips pm).map TripNode.id).Nodup →
      (∀ t ∈ purposeMapTrips pm, ∃ w, t.id = tripIdStr w) →
      (pm.map Prod.fst).Nodup →
      (∀ kv ∈ pm, NoUnderscore kv.1) →
      (∀ kv ∈ pm, (kv.2.map Prod.fst).Nodup) →
      (∀ kv ∈ pm, ∀ kv2 ∈ kv.2, NoUnderscore kv2.1) →
      (((placePurposes M rng c d dX dY pstep i pm).1).map Node.id).Nodup ∧
      ∀ s ∈ ((placePurposes M rng c d dX dY pstep i pm).1).map Node.id,
        (∃ q ∈ pm.map Prod.fst, s = groupIdStr d q) ∨
        (∃ q ∈ pm.map Prod.fst, ∃ tr, s = transIdStr d q tr) ∨
        (∃ q ∈ pm.map Prod.fst, ∃ tr k, s = routeIdStr d q tr k) ∨
        ∃ t ∈ purposeMapTrips pm, s = t.id := by
  intro i c pm
  induction pm generalizing i c with
  | nil =>
      intro h1 h2 h3 h4 h5 h6
      constructor
      · simp [placePurposes]
      · intro s hs
        simp [placePurposes] at hs
  | cons kv rest ih =>
      obtain ⟨p0, tm⟩ := kv
      intro h1 h2 h3 h4 h5 h6
      have hsplit : purposeMapTrips ((p0, tm) :: rest)
          = transportMapTrips tm ++ purposeMapTrips rest := rfl
      rw [hsplit, List.map_append, List.nodup_append] at h1
      obtain ⟨hA, hB, hAB⟩ := h1
      have h2l : ∀ t ∈ transportMapTrips tm, ∃ w, t.id = tripIdStr w :=
        fun t ht => h2 t (List.mem_append_left _ ht)
      have h2r : ∀ t ∈ purposeMapTrips rest, ∃ w, t.id = tripIdStr w :=
        fun t ht => h2 t (List.mem_append_right _ ht)
      rw [List.map_cons, List.nodup_cons] at h3
      obtain ⟨hkey, h3rest⟩ := h3
      have hnoU0 : NoUnderscore p0 := h4 (p0, tm) (List.mem_cons_self _ _)
      have h4rest : ∀ kv ∈ rest, NoUnderscore kv.1 :=
        fun kv hkv => h4 kv (List.mem_cons_of_mem _ hkv)
      have hnoUrest : ∀ q ∈ rest.map Prod.fst, NoUnderscore q := by
        intro q hq
        rcases List.mem_map.mp hq with ⟨kv, hkv, rfl⟩
        exact h4rest kv hkv
      have h5rest : ∀ kv ∈ rest, (kv.2.map Prod.fst).Nodup :=
        fun kv hkv => h5 kv (List.mem_cons_of_mem _ hkv)
      have h6rest : ∀ kv ∈ rest, ∀ kv2 ∈ kv.2, NoUnderscore kv2.1 :=
        fun kv hkv => h6 kv (List.mem_cons_of_mem _ hkv)
      have htmNodup : (tm.map Prod.fst).Nodup := h5 (p0, tm) (List.mem_cons_self _ _)
      have htmNoU : ∀ kv ∈ tm, NoUnderscore kv.1 :=
        h6 (p0, tm) (List.mem_cons_self _ _)
      have ihAll := fun c2 =>
        ih (i + 1) c2 hB h2r h3rest h4rest h5rest h6rest
      have htrans := fun (pX2 pY2 tlr2 tstep2 : R) (c2 : ℕ) =>
        ids_nodup_placeTransports M rng d p0 pX2 pY2 tlr2 tstep2 0 c2 tm
          hA h2l htmNodup htmNoU
      simp only [placePurposes, List.map_cons, List.map_append, Node.id]
      constructor
      · rw [List.nodup_append, List.nodup_cons]
        refine ⟨⟨?_, (htrans _ _ _ _ _).1⟩, (ihAll _).1, ?_⟩
        · intro hmem
          rcases (htrans _ _ _ _ _).2 _ hmem with ⟨tr2, _, heq⟩ |
            ⟨tr2, _, k2, heq⟩ | ⟨t, ht, heq⟩
          · exact ne_group_trans d p0 d p0 tr2 heq
          · exact ne_group_route d p0 d p0 tr2 k2 heq
          · obtain ⟨w, hw⟩ := h2l t ht
            rw [hw] at heq
            exact ne_group_trip d p0 w heq
        · intro s hs hs2
          rcases List.mem_cons.mp hs with rfl | hs
          · rcases (ihAll _).2 _ hs2 with ⟨q2, hq2, heq⟩ | ⟨q2, hq2, tr2, heq⟩ |
              ⟨q2, hq2, tr2, k2, heq⟩ | ⟨t, ht, heq⟩
            · exact hkey ((groupIdStr_cancel heq) ▸ hq2)
            · exact ne_group_trans d p0 d q2 tr2 heq
            · exact ne_group_route d p0 d q2 tr2 k2 heq
            · obtain ⟨w, hw⟩ := h2r t ht
              rw [hw] at heq
              exact ne_group_trip d p0 w heq
          · rcases (htrans _ _ _ _ _).2 _ hs with ⟨tr1, _, rfl⟩ |
              ⟨tr1, _, k1, rfl⟩ | ⟨t, ht, rfl⟩
            · rcases (ihAll _).2 _ hs2 with ⟨q2, hq2, heq⟩ | ⟨q2, hq2, tr2, heq⟩ |
                ⟨q2, hq2, tr2, k2, heq⟩ | ⟨t2, ht2, heq⟩
              · exact ne_group_trans d q2 d p0 tr1 heq.symm
              · exact hkey
                  ((transIdStr_purpose hnoU0 (hnoUrest q2 hq2) heq) ▸ hq2)
              · exact ne_trans_route d p0 tr1 d q2 tr2 k2 heq
              · obtain ⟨w, hw⟩ := h2r t2 ht2
                rw [hw] at heq
                exact ne_trans_trip d p0 tr1 w heq
            · rcases (ihAll _).2 _ hs2 with ⟨q2, hq2, heq⟩ | ⟨q2, hq2, tr2, heq⟩ |
                ⟨q2, hq2, tr2, k2, heq⟩ | ⟨t2, ht2, heq⟩
              · exact ne_group_route d q2 d p0 tr1 k1 heq.symm
              · exact ne_trans_route d q2 tr2 d p0 tr1 k1 heq.symm
              · exact hkey
                  ((routeIdStr_purpose hnoU0 (hnoUrest q2 hq2) heq) ▸ hq2)
              · obtain ⟨w, hw⟩ := h2r t2 ht2
                rw [hw] at heq
                exact ne_route_trip d p0 tr1 k1 w heq
            · rcases (ihAll _).2 _ hs2 with ⟨q2, hq2, heq⟩ | ⟨q2, hq2, tr2, heq⟩ |
                ⟨q2, hq2, tr2, k2, heq⟩ | ⟨t2, ht2, heq⟩
              · obtain ⟨w, hw⟩ := h2l t ht
                rw [hw] at heq
                exact ne_group_trip d q2 w heq.symm
              · obtain ⟨w, hw⟩ := h2l t ht
                rw [hw] at heq
                exact ne_trans_trip d q2 tr2 w heq.symm
              · obtain ⟨w, hw⟩ := h2l t ht
                rw [hw] at heq
                exact ne_route_trip d q2 tr2 k2 w heq.symm
              · exact hAB (List.mem_map.mpr ⟨t, ht, rfl⟩)
                  (heq ▸ List.mem_map.mpr ⟨t2, ht2, rfl⟩)
      · intro s hs
        rcases List.mem_append.mp hs with hs | hm
        · rcases List.mem_cons.mp hs with rfl | hs
          · exact Or.inl ⟨p0, by simp, rfl⟩
          · rcases (htrans _ _ _ _ _).2 _ hs with ⟨tr1, _, rfl⟩ |
              ⟨tr1, _, k1, rfl⟩ | ⟨t, ht, rfl⟩
            · exact Or.inr (Or.inl ⟨p0, by simp, tr1, rfl⟩)
            · exact Or.inr (Or.inr (Or.inl ⟨p0, by simp, tr1, k1, rfl⟩))
            · exact Or.inr (Or.inr (Or.inr ⟨t, List.mem_append_left _ ht, rfl⟩))
        · rcases (ihAll _).2 _ hm with ⟨q2, hq2, heq⟩ | ⟨q2, hq2, tr2, heq⟩ |
            ⟨q2, hq2, tr2, k2, heq⟩ | ⟨t, ht, heq⟩
          · exact Or.inl ⟨q2, by simp [hq2], heq⟩
          · exact Or.inr (Or.inl ⟨q2, by simp [hq2], tr2, heq⟩)
          · exact Or.inr (Or.inr (Or.inl ⟨q2, by simp [hq2], tr2, k2, heq⟩))
          · exact Or.inr (Or.inr (Or.inr ⟨t, List.mem_append_right _ ht, heq⟩))

/-- Department-level placement produces duplicate-free ids: every id is a
`group_`/`trans_`/`route_` template at a stored department key or a stored
trip id, provided the grouping satisfies the key discipline. -/
theorem ids_nodup_placeDeptGroups {R : Type} [LinearOrderedField R]
    (M : JsMath R) (rng : ℕ → R) (deptPositions : List (String × (R × R))) :
    ∀ (c : ℕ) (g : DeptGroups R),
      ((deptGroupsTrips g).map TripNode.id).Nodup →
      (∀ t ∈ deptGroupsTrips g, ∃ w, t.id = tripIdStr w) →
      GroupKeysInv g →
      (((placeDeptGroups M rng c deptPositions g).1).map Node.id).Nodup ∧
      ∀ s ∈ ((placeDeptGroups M rng c deptPositions g).1).map Node.id,
        (∃ d ∈ g.map Prod.fst,
          (∃ q, s = groupIdStr d q) ∨ (∃ q tr, s = transIdStr d q tr) ∨
          ∃ q tr k, s = routeIdStr d q tr k) ∨
        ∃ t ∈ deptGroupsTrips g, s = t.id := by
  intro c g
  induction g generalizing c with
  | nil =>
      intro h1 h2 h3
      constructor
      · simp [placeDeptGroups]
      · intro s hs
        simp [placeDeptGroups] at hs
  | cons kv rest ih =>
      obtain ⟨d0, pm⟩ := kv
      intro h1 h2 h3
      have hsplit : deptGroupsTrips ((d0, pm) :: rest)
          = purposeMapTrips pm ++ deptGroupsTrips rest := rfl
      rw [hsplit, List.map_append, List.nodup_append] at h1
      obtain ⟨hA, hB, hAB⟩ := h1
      have h2l : ∀ t ∈ purposeMapTrips pm, ∃ w, t.id = tripIdStr w :=
        fun t ht => h2 t (List.mem_append_left _ ht)
      have h2r : ∀ t ∈ deptGroupsTrips rest, ∃ w, t.id = tripIdStr w :=
        fun t ht => h2 t (List.mem_append_right _ ht)
      obtain ⟨h3keys, h3ent⟩ := h3
      rw [List.map_cons, List.nodup_cons] at h3keys
      obtain ⟨hkey, h3rest⟩ := h3keys
      have hInvRest : GroupKeysInv rest :=
        ⟨h3rest, fun kv hkv => h3ent kv (List.mem_cons_of_mem _ hkv)⟩
      have hent := h3ent (d0, pm) (List.mem_cons_self _ _)
      have hnoU0 : NoUnderscore d0 := hent.1
      have hnoUrest : ∀ d2 ∈ rest.map Prod.fst, NoUnderscore d2 := by
        intro d2 hd2
        rcases List.mem_map.mp hd2 with ⟨kv, hkv, rfl⟩
        exact (h3ent kv (List.mem_cons_of_mem _ hkv)).1
      have ihAll := fun c2 => ih c2 hB h2r hInvRest
      cases hl : deptPositions.lookup d0 with
      | none =>
          have hred : placeDeptGroups M rng c deptPositions ((d0, pm) :: rest)
              = placeDeptGroups M rng c deptPositions rest := by
            simp only [placeDeptGroups, hl]
          rw [hred]
          refine ⟨(ihAll c).1, ?_⟩
          intro s hs
          rcases (ihAll c).2 _ hs with ⟨d2, hd2, hsh⟩ | ⟨t, ht, heq⟩
          · exact Or.inl ⟨d2, by simp [hd2], hsh⟩
          · exact Or.inr ⟨t, List.mem_append_right _ ht, heq⟩
      | some pos =>
          have hpurp := fun (dX2 dY2 pstep2 : R) (c2 : ℕ) =>
            ids_nodup_placePurposes M rng d0 dX2 dY2 pstep2 0 c2 pm
              hA h2l hent.2.1
              (fun kv2 hkv2 => (hent.2.2 kv2 hkv2).1)
              (fun kv2 hkv2 => (hent.2.2 kv2 hkv2).2.1)
              (fun kv2 hkv2 => (hent.2.2 kv2 hkv2).2.2)
          have hred : placeDeptGroups M rng c deptPositions ((d0, pm) :: rest)
              = ((placePurposes M rng c d0 pos.1 pos.2
                    (2 * M.pi / ((lengthOr1 pm.length : ℕ) : R)) 0 pm).1
                  ++ (placeDeptGroups M rng
                       (placePurposes M rng c d0 pos.1 pos.2
                         (2 * M.pi / ((lengthOr1 pm.length : ℕ) : R)) 0 pm).2
                       deptPositions rest).1,
                 (placeDeptGroups M rng
                   (placePurposes M rng c d0 pos.1 pos.2
                     (2 * M.pi / ((lengthOr1 pm.length : ℕ) : R)) 0 pm).2
                   deptPositions rest).2) := by
            simp only [placeDeptGroups, hl]
          rw [hred]
          constructor
          · rw [List.map_append, List.nodup_append]
            refine ⟨(hpurp _ _ _ _).1, (ihAll _).1, ?_⟩
            intro s hs hs2
            rcases (hpurp _ _ _ _).2 _ hs with ⟨q1, _, rfl⟩ |
              ⟨q1, _, tr1, rfl⟩ | ⟨q1, _, tr1, k1, rfl⟩ | ⟨t, ht, rfl⟩
            · rcases (ihAll _).2 _ hs2 with ⟨d2, hd2, hsh⟩ | ⟨t2, ht2, heq⟩
              · rcases hsh with ⟨q2, heq⟩ | ⟨q2, tr2, heq⟩ | ⟨q2, tr2, k2, heq⟩
                · exact hkey
                    ((groupIdStr_dept hnoU0 (hnoUrest d2 hd2) heq) ▸ hd2)
                · exact ne_group_trans d0 q1 d2 q2 tr2 heq
                · exact ne_group_route d0 q1 d2 q2 tr2 k2 heq
              · obtain ⟨w, hw⟩ := h2r t2 ht2
                rw [hw] at heq
                exact ne_group_trip d0 q1 w heq
            · rcases (ihAll _).2 _ hs2 with ⟨d2, hd2, hsh⟩ | ⟨t2, ht2, heq⟩
              · rcases hsh with ⟨q2, heq⟩ | ⟨q2, tr2, heq⟩ | ⟨q2, tr2, k2, heq⟩
                · exact ne_group_trans d2 q2 d0 q1 tr1 heq.symm
                · exact hkey
                    ((transIdStr_dept hnoU0 (hnoUrest d2 hd2) heq) ▸ hd2)
                · exact ne_trans_route d0 q1 tr1 d2 q2 tr2 k2 heq
              · obtain ⟨w, hw⟩ := h2r t2 ht2
                rw [hw] at heq
                exact ne_trans_trip d0 q1 tr1 w heq
            · rcases (ihAll _).2 _ hs2 with ⟨d2, hd2, hsh⟩ | ⟨t2, ht2, heq⟩
              · rcases hsh with ⟨q2, heq⟩ | ⟨q2, tr2, heq⟩ | ⟨q2, tr2, k2, heq⟩
                · exact ne_group_route d2 q2 d0 q1 tr1 k1 heq.symm
                · exact ne_trans_route d2 q2 tr2 d0 q1 tr1 k1 heq.symm
                · exact hkey
                    ((routeIdStr_dept hnoU0 (hnoUrest d2 hd2) heq) ▸ hd2)
              · obtain ⟨w, hw⟩ := h2r t2 ht2
                rw [hw] at heq
                exact ne_route_trip d0 q1 tr1 k1 w heq
            · rcases (ihAll _).2 _ hs2 with ⟨d2, hd2, hsh⟩ | ⟨t2, ht2, heq⟩
              · obtain ⟨w, hw⟩ := h2l t ht
                rcases hsh with ⟨q2, heq⟩ | ⟨q2, tr2, heq⟩ | ⟨q2, tr2, k2, heq⟩
                · rw [hw] at heq
                  exact ne_group_trip d2 q2 w heq.symm
                · rw [hw] at heq
                  exact ne_trans_trip d2 q2 tr2 w heq.symm
                · rw [hw] at heq
                  exact ne_route_trip d2 q2 tr2 k2 w heq.symm
              · exact hAB (List.mem_map.mpr ⟨t, ht, rfl⟩)
                  (heq ▸ List.mem_map.mpr ⟨t2, ht2, rfl⟩)
          · intro s hs
            rw [List.map_append] at hs
            rcases List.mem_append.mp hs with hs | hm
            · rcases (hpurp _ _ _ _).2 _ hs with ⟨q1, _, rfl⟩ |
                ⟨q1, _, tr1, rfl⟩ | ⟨q1, _, tr1, k1, rfl⟩ | ⟨t, ht, rfl⟩
              · exact Or.inl ⟨d0, by simp, Or.inl ⟨q1, rfl⟩⟩
              · exact Or.inl ⟨d0, by simp, Or.inr (Or.inl ⟨q1, tr1, rfl⟩)⟩
              · exact Or.inl ⟨d0, by simp, Or.inr (Or.inr ⟨q1, tr1, k1, rfl⟩)⟩
              · exact Or.inr ⟨t, List.mem_append_left _ ht, rfl⟩
            · rcases (ihAll _).2 _ hm with ⟨d2, hd2, hsh⟩ | ⟨t, ht, heq⟩
              · exact Or.inl ⟨d2, by simp [hd2], hsh⟩
              · exact Or.inr ⟨t, List.mem_append_right _ ht, heq⟩

/-- C3 (amended): the id values of all produced nodes (department,
purpose-group, transport-group, route-group and trip nodes together) are
pairwise distinct, provided every processed row carries a truthy Trip ID cell,
those Trip ID strings are pairwise distinct across the processed rows, and the
interpolated department, purpose and shipping-type key strings contain no
underscore.  (The unrestricted claim is refuted by
duplicate-Trip-ID inputs, for which two trip nodes share one id.) -/
theorem claim_C3_unique_ids {R : Type} [LinearOrderedField R]
    (M : JsMath R) (rng : ℕ → R) (idR : ℕ → String) (rows : List Row)
    (htid : ∀ r ∈ rows, validRow r → truthyS r.tripId)
    (hnodup : ((rows.filter validRow).map (fun r => r.tripId.getD "")).Nodup)
    (hnoU : ∀ r ∈ rows, validRow r →
      NoUnderscore (rowDept r) ∧ NoUnderscore (orElseS r.purpose "Other") ∧
      NoUnderscore (orElseS r.shippingType "Other")) :
    (((processEmissionsData M rng idR rows).nodes).map Node.id).Nodup := by
  have hOther : NoUnderscore "Other" := by decide
  have htripInj : Function.Injective tripIdStr := fun a b h => tripIdStr_inj h
  have hdeptInj : Function.Injective deptIdStr := fun a b h => deptIdStr_inj h
  have htrips : ((aggregate (R := R) idR rows).trips.map TripNode.id).Nodup := by
    rw [aggregate_trips_ids idR rows htid]
    have hm : (rows.filter validRow).map (fun r => tripIdStr (r.tripId.getD ""))
        = ((rows.filter validRow).map (fun r => r.tripId.getD "")).map tripIdStr := by
      rw [List.map_map]
      rfl
    rw [hm]
    exact hnodup.map htripInj
  have hshape : ∀ t ∈ (aggregate (R := R) idR rows).trips,
      ∃ w, t.id = tripIdStr w :=
    aggregate_trips_pred _ (fun k r hr hv => ⟨rowTid idR k r, rfl⟩)
  have hkeys : ∀ t ∈ (aggregate (R := R) idR rows).trips,
      NoUnderscore t.department ∧ NoUnderscore t.purpose ∧
      NoUnderscore (transportKeyOf t) := by
    refine aggregate_trips_pred _ (fun k r hr hv => ?_)
    obtain ⟨hd, hp, htr⟩ := hnoU r hr hv
    refine ⟨hd, hp, ?_⟩
    by_cases he : (mkTrip R (rowTid idR k r) r).transportMode = ""
    · rw [transportKeyOf, if_pos he]
      exact hOther
    · rw [transportKeyOf, if_neg he]
      exact htr
  have hg1 : ((deptGroupsTrips
      (groupTrips (aggregate (R := R) idR rows).trips)).map TripNode.id).Nodup :=
    (((groupTrips_perm _).map TripNode.id).nodup_iff).mpr htrips
  have hg2 : ∀ t ∈ deptGroupsTrips
      (groupTrips (aggregate (R := R) idR rows).trips), ∃ w, t.id = tripIdStr w :=
    fun t ht => hshape t ((groupTrips_perm _).mem_iff.mp ht)
  have hg3 : GroupKeysInv (groupTrips (aggregate (R := R) idR rows).trips) :=
    groupTrips_keysInv hkeys
  have hblock := fun dp =>
    ids_nodup_placeDeptGroups M rng dp 0
      (groupTrips (aggregate (R := R) idR rows).trips) hg1 hg2 hg3
  have hdv : (List.map
        (fun kv => ({ kv.2 with
            radius := 100 + M.sqrt ((kv.2.emissions : R)) * (1/2) } : DeptNode R))
        (aggregate (R := R) idR rows).departments).map DeptNode.id
      = ((aggregate (R := R) idR rows).departments.map Prod.fst).map deptIdStr := by
    rw [List.map_map, List.map_map]
    refine List.map_congr_left (fun kv hkv => ?_)
    show kv.2.id = deptIdStr kv.1
    rw [aggregate_entry_id idR rows kv hkv,
      ← aggregate_entry_name idR rows kv hkv]
    rfl
  have hAids : List.map Node.id
      (List.map Node.dept
        (positionDepts M
          (List.map
            (fun kv => ({ kv.2 with
                radius := 100 + M.sqrt ((kv.2.emissions : R)) * (1/2) } : DeptNode R))
            (aggregate (R := R) idR rows).departments)))
      = ((aggregate (R := R) idR rows).departments.map Prod.fst).map deptIdStr := by
    rw [List.map_map]
    show (positionDeptsFrom M 0
        (List.map
          (fun kv => ({ kv.2 with
              radius := 100 + M.sqrt ((kv.2.emissions : R)) * (1/2) } : DeptNode R))
          (aggregate (R := R) idR rows).departments)).map DeptNode.id = _
    rw [positionDeptsFrom_map_id]
    exact hdv
  have hkeysNodup :
      ((((aggregate (R := R) idR rows).departments.map Prod.fst).map deptIdStr)).Nodup := by
    rw [aggregate_keys]
    exact (firstSeenDepartments_nodup rows).map hdeptInj
  show (List.map Node.id
      (List.map Node.dept
          (positionDepts M
            (List.map
              (fun kv => ({ kv.2 with
                  radius := 100 + M.sqrt ((kv.2.emissions : R)) * (1/2) } : DeptNode R))
              (aggregate (R := R) idR rows).departments))
        ++ (placeDeptGroups M rng 0
              (List.map (fun d => (d.name, (d.x, d.y)))
                (positionDepts M
                  (List.map
                    (fun kv => ({ kv.2 with
                        radius := 100 + M.sqrt ((kv.2.emissions : R)) * (1/2) } : DeptNode R))
                    (aggregate (R := R) idR rows).departments)))
              (groupTrips (aggregate (R := R) idR rows).trips)).1)).Nodup
  rw [List.map_append, List.nodup_append]
  refine ⟨?_, (hblock _).1, ?_⟩
  · rw [hAids]
    exact hkeysNodup
  · rw [hAids]
    intro x hx hx2
    rcases List.mem_map.mp hx with ⟨nm, hnm, rfl⟩
    rcases (hblock _).2 _ hx2 with ⟨d2, _, hsh⟩ | ⟨t, ht, heq⟩
    · rcases hsh with ⟨q, heq⟩ | ⟨q, tr, heq⟩ | ⟨q, tr, k, heq⟩
      · exact ne_dept_group nm d2 q heq
      · exact ne_dept_trans nm d2 q tr heq
      · exact ne_dept_route nm d2 q tr k heq
    · obtain ⟨w, hw⟩ := hg2 t ht
      rw [hw] at heq
      exact ne_dept_trip nm w heq

/-- C3 witness: on a concrete one-row input with a truthy, unique Trip ID and
underscore-free keys, the amended uniqueness theorem applies and its
hypotheses hold by evaluation. -/
theorem claim_C3_unique_ids_witness :
    (((processEmissionsData mathQ rngQ idRngQ [sampleRow]).nodes).map Node.id).Nodup :=
  claim_C3_unique_ids mathQ rngQ idRngQ [sampleRow]
    (by decide) (by decide) (by decide)

end CarbonMap
